import Mathlib

/-!
Shallow embedding of the topic-multiplexing websocket pool of `src/websocket.py`
(classes `Websocket` and `WebsocketPool`), together with proofs of the spec's
testable properties.  Python dicts become association lists in insertion order,
Python sets become duplicate-free lists, wall-clock times become rationals, and
the asynchronous send side-effects become explicit lists of outbound messages.
The key type of a topic is kept abstract (`κ`); in the running system it is a
string such as `video-playback-by-id.123`.
-/

set_option maxHeartbeats 1000000
set_option maxRecDepth 8000
set_option linter.unusedSectionVars false

namespace TwitchWS

/-- Modelled from the spec: a pubsub topic (class `WebsocketTopic`, defined in
`constants.py` which is not among the sources) is an opaque, hashable handle
whose equality and hash are by its string-serialisable key, and whose `str()`
is that key.  The inbound-event callback it carries plays no role in any
property below and is omitted; the key type is kept abstract. -/
structure WebsocketTopic (κ : Type) where
  key : κ
deriving DecidableEq

/-- The state of one `Websocket` connection that the topic-management claims
depend on: the fields set up in `Websocket.__init__` minus the heartbeat
timestamps (embedded separately as `PingState`, used only by `_handle_ping`)
and the GUI/task handles.  `topics` is the insertion-ordered dict
`topic-key -> topic`; `submitted` is the set of topics already subscribed on
the wire; `topicsChanged` is the `_topics_changed` event; `connected` is
`self._ws.has_value()`; `closed` is the `_closed` event.  `nonceCtr` indexes
the stream of random nonces drawn by `send` (the RNG state of `create_nonce`). -/
structure Websocket (κ : Type) where
  idx : Nat
  topics : List (κ × WebsocketTopic κ)
  submitted : List (WebsocketTopic κ)
  topicsChanged : Bool
  connected : Bool
  closed : Bool
  nonceCtr : Nat
deriving DecidableEq

/-- The state of `WebsocketPool`: the `_running` event, the `websockets` list
and the `_connection_count` counter. -/
structure WebsocketPool (κ : Type) where
  running : Bool
  websockets : List (Websocket κ)
  connectionCount : Nat
deriving DecidableEq

/-- The configuration constants `WS_TOPICS_LIMIT` (per-connection topic
capacity) and `MAX_WEBSOCKETS` (hard connection maximum) used by the pool. -/
structure Config where
  wsTopicsLimit : Nat
  maxWebsockets : Nat
deriving DecidableEq

/-- Modelled from the spec: `constants.py` is not among the sources; section 8
of the spec fixes the shipped values as capacity `C = 50` topics per
connection and `MAX = 20` connections. -/
def defaultConfig : Config := ⟨50, 20⟩

/-- `WebsocketPool.__init__`: not running, no websockets, zero connections. -/
def emptyPool (κ : Type) : WebsocketPool κ := ⟨false, [], 0⟩

/-- A fresh `Websocket(self, index)`: empty topic dict, empty submitted set,
no pending topic change, not connected (the socket only appears once the
spawned `_handle` task finishes connecting), not closed. -/
def newWebsocket {κ : Type} (i : Nat) : Websocket κ :=
  ⟨i, [], [], false, false, false, 0⟩

variable {κ : Type} [DecidableEq κ]

/-- Python dict assignment `d[k] = v`: replace the value at an existing key in
place, otherwise append a new binding (dicts preserve insertion order). -/
def dictInsert (k : κ) (v : WebsocketTopic κ) :
    List (κ × WebsocketTopic κ) → List (κ × WebsocketTopic κ)
  | [] => [(k, v)]
  | p :: rest => if p.1 = k then (k, v) :: rest else p :: dictInsert k v rest

/-- Python `set(xs)`: collapse duplicates.  The iteration order of a Python
set is arbitrary; this model keeps the order of last occurrences. -/
def dedup : List (WebsocketTopic κ) → List (WebsocketTopic κ)
  | [] => []
  | a :: as => if a ∈ dedup as then dedup as else a :: dedup as

/-- Python `set(xs)` for topic keys (the argument of pool `remove_topics`). -/
def dedupKeys : List κ → List κ
  | [] => []
  | a :: as => if a ∈ dedupKeys as then dedupKeys as else a :: dedupKeys as

/-- The loop body of `Websocket.add_topics` (lines 339-342): while the given
set is non-empty and the dict holds fewer than `cap` topics, pop a topic and
bind it under its string key; reports the new dict, the leftover set and
whether anything was added. -/
def wsAddTopicsAux (cap : Nat) :
    List (WebsocketTopic κ) → List (κ × WebsocketTopic κ) → Bool →
      List (κ × WebsocketTopic κ) × List (WebsocketTopic κ) × Bool
  | [], d, changed => (d, [], changed)
  | t :: ts, d, changed =>
    if d.length < cap then wsAddTopicsAux cap ts (dictInsert t.key t d) true
    else (d, t :: ts, changed)

/-- `Websocket.add_topics` (lines 337-344): fill remaining capacity from the
given set, mutating both the topic dict and the caller's set (returned as the
second component), and set `_topics_changed` if anything was added. -/
def Websocket.addTopics (cap : Nat) (ws : Websocket κ) (ts : List (WebsocketTopic κ)) :
    Websocket κ × List (WebsocketTopic κ) :=
  let r := wsAddTopicsAux cap ts ws.topics false
  ({ ws with topics := r.1, topicsChanged := ws.topicsChanged || r.2.2 }, r.2.1)

/-- `Websocket.remove_topics` (lines 346-354): intersect the given key set
with the dict's keys; if empty do nothing, otherwise drop the intersection
from the caller's set, delete those keys from the dict and set
`_topics_changed`. -/
def Websocket.removeTopics (ws : Websocket κ) (ks : List κ) :
    Websocket κ × List κ :=
  let existing := ks.filter (fun k => decide (k ∈ ws.topics.map Prod.fst))
  if existing.isEmpty then (ws, ks)
  else
    ({ ws with topics := ws.topics.filter (fun p => decide (p.1 ∉ existing)),
               topicsChanged := true },
      ks.filter (fun k => decide (k ∉ existing)))

/-- All topic values currently assigned anywhere in the pool (the
`existing_topics` accumulation of pool `add_topics`, lines 414-416). -/
def allTopicValues (p : WebsocketPool κ) : List (WebsocketTopic κ) :=
  (p.websockets.map (fun ws => ws.topics.map Prod.snd)).flatten

/-- The first placement loop of pool `add_topics` (lines 424-430): walk the
existing websockets and let every one that is connected and below capacity
absorb topics from the shared set, returning early once the set drains. -/
def fillExisting (cap : Nat) :
    List (Websocket κ) → List (WebsocketTopic κ) →
      List (Websocket κ) × List (WebsocketTopic κ)
  | [], ts => ([], ts)
  | ws :: rest, ts =>
    if ws.connected = true ∧ ws.topics.length < cap then
      let r := ws.addTopics cap ts
      if r.2.isEmpty then (r.1 :: rest, [])
      else
        let q := fillExisting cap rest r.2
        (r.1 :: q.1, q.2)
    else
      let q := fillExisting cap rest ts
      (ws :: q.1, q.2)

/-- The second placement loop of pool `add_topics`
(`for ws_idx in range(len(self.websockets), MAX_WEBSOCKETS)`, lines 433-446),
with the loop desugared on the fuel `MAX_WEBSOCKETS - len(self.websockets)`:
create a websocket (disconnected until its spawned task connects), append it,
bump the connection counter, pour topics into it, and stop when the set
drains; when the range runs out with topics left, raise `MinerException`
(line 449). The Boolean in the result records the raise, and the partially
updated pool stands (no rollback). -/
def addNewAux (cfg : Config) :
    Nat → WebsocketPool κ → List (WebsocketTopic κ) → Nat → WebsocketPool κ × Bool
  | 0, p, _, _ => (p, true)
  | fuel + 1, p, ts, idx =>
    let ws : Websocket κ := newWebsocket idx
    let r := ws.addTopics cfg.wsTopicsLimit ts
    let p1 : WebsocketPool κ :=
      { p with websockets := p.websockets ++ [r.1],
               connectionCount := p.connectionCount + 1 }
    if r.2.isEmpty then (p1, false)
    else addNewAux cfg fuel p1 r.2 (idx + 1)

/-- `WebsocketPool.add_topics` (lines 404-449): deduplicate the input, drop
topics already assigned anywhere, greedily fill connected existing
connections, then create new connections up to the maximum; the Boolean
result records whether `MinerException` was raised (placed topics stay
placed). -/
def poolAddTopics (cfg : Config) (p : WebsocketPool κ)
    (topics : List (WebsocketTopic κ)) : WebsocketPool κ × Bool :=
  let ts0 := dedup topics
  if ts0.isEmpty then (p, false)
  else
    let ts1 := ts0.filter (fun t => decide (t ∉ allTopicValues p))
    if ts1.isEmpty then (p, false)
    else
      let f := fillExisting cfg.wsTopicsLimit p.websockets ts1
      if f.2.isEmpty then ({ p with websockets := f.1 }, false)
      else
        addNewAux cfg (cfg.maxWebsockets - f.1.length)
          { p with websockets := f.1 } f.2 f.1.length

/-- The removal loop of pool `remove_topics` (lines 460-461): thread the
shared key set through every websocket's `remove_topics`. -/
def removeAll : List (Websocket κ) → List κ → List (Websocket κ) × List κ
  | [], ks => ([], ks)
  | ws :: rest, ks =>
    let r := ws.removeTopics ks
    let q := removeAll rest r.2
    (r.1 :: q.1, q.2)

/-- `sorted(self.websockets, key=len(topics))` followed by `pop(0)` picks the
first websocket (in list order) holding the fewest topics; `list.remove`
detaches exactly that object.  `popFewest` returns that websocket and the
remaining list with order preserved. -/
def popFewest : List (Websocket κ) → Option (Websocket κ × List (Websocket κ))
  | [] => none
  | w :: rest =>
    match popFewest rest with
    | none => some (w, [])
    | some (m, rest') =>
      if w.topics.length ≤ m.topics.length then some (w, rest)
      else some (m, w :: rest')

/-- The eviction loop of `_optimize_pool` (lines 484-489): while more
websockets remain than required, detach the one with the fewest topics and
collect it; returns survivors and the evicted websockets in eviction order.
The fuel (instantiated with the list length) bounds the loop. -/
def evictAux : Nat → List (Websocket κ) → Nat → List (Websocket κ) × List (Websocket κ)
  | 0, l, _ => (l, [])
  | fuel + 1, l, required =>
    if required < l.length then
      match popFewest l with
      | some (w, rest) =>
        let q := evictAux fuel rest required
        (q.1, w :: q.2)
      | none => (l, [])
    else (l, [])

/-- `WebsocketPool._optimize_pool` (lines 466-493): with at least two
websockets, compute the minimum connection count that holds the surviving
topics at full capacity; if the pool exceeds it, evict fewest-first
(decrementing the counter, saturating at zero), collect the evicted topics,
and re-submit them through `add_topics`.  The re-submission task runs after
the caller releases the topics lock, hence sequentially after the eviction;
an exception it raises is only logged, so only its pool state survives. -/
def optimizePool (cfg : Config) (p : WebsocketPool κ) : WebsocketPool κ :=
  if p.websockets.length < 2 then p
  else
    let total := (p.websockets.map (fun ws => ws.topics.length)).sum
    let required := (total + cfg.wsTopicsLimit - 1) / cfg.wsTopicsLimit
    if required < p.websockets.length then
      let e := evictAux p.websockets.length p.websockets required
      let recycled := (e.2.map (fun ws => ws.topics.map Prod.snd)).flatten
      let p1 : WebsocketPool κ :=
        { p with websockets := e.1,
                 connectionCount := p.connectionCount - e.2.length }
      if recycled.isEmpty then p1 else (poolAddTopics cfg p1 recycled).1
    else p

/-- `WebsocketPool.remove_topics` (lines 451-464): deduplicate the keys; if
none, return at once; otherwise remove them from every websocket and run the
consolidation pass. -/
def poolRemoveTopics (cfg : Config) (p : WebsocketPool κ) (keys : List κ) :
    WebsocketPool κ :=
  let ks := dedupKeys keys
  if ks.isEmpty then p
  else
    let r := removeAll p.websockets ks
    optimizePool cfg { p with websockets := r.1 }

/-- `Websocket.stop(remove=...)` (lines 91-107), state part: the `_closed`
event is set and the socket handle goes away; with `remove`, the topic dict
is cleared and `_topics_changed` set. -/
def Websocket.stopWs (remove : Bool) (ws : Websocket κ) : Websocket κ :=
  let w1 : Websocket κ := { ws with closed := true, connected := false }
  if remove then { w1 with topics := [], topicsChanged := true } else w1

/-- `WebsocketPool.stop(clear_topics=...)` (lines 396-402): clear `_running`,
stop every member websocket (the list itself is not touched), reset the
connection counter to zero. -/
def poolStop (clearTopics : Bool) (p : WebsocketPool κ) : WebsocketPool κ :=
  { running := false,
    websockets := p.websockets.map (Websocket.stopWs clearTopics),
    connectionCount := 0 }

/-- `WebsocketPool.start` (lines 390-394): set `_running` and start every
member websocket (whose `_handle` task clears its `_closed` event). -/
def poolStart (p : WebsocketPool κ) : WebsocketPool κ :=
  { p with running := true,
           websockets := p.websockets.map (fun ws => { ws with closed := false }) }

/-- One externally visible pool event: a topic-set mutation through the pool
API, or the environment connecting/disconnecting the socket of the websocket
at a list position (the asynchronous outcome of `_handle`). -/
inductive PoolOp (κ : Type) where
  | add (ts : List (WebsocketTopic κ))
  | remove (ks : List κ)
  | connect (i : Nat)
  | disconnect (i : Nat)

/-- Replace the element at a position by the image under `f` (identity when
the position is out of range). -/
def modifyAt (i : Nat) (f : Websocket κ → Websocket κ) :
    List (Websocket κ) → List (Websocket κ)
  | [] => []
  | w :: ws =>
    match i with
    | 0 => f w :: ws
    | j + 1 => w :: modifyAt j f ws

/-- Apply one pool event to a pool state. -/
def applyOp (cfg : Config) (p : WebsocketPool κ) : PoolOp κ → WebsocketPool κ
  | PoolOp.add ts => (poolAddTopics cfg p ts).1
  | PoolOp.remove ks => poolRemoveTopics cfg p ks
  | PoolOp.connect i =>
    { p with websockets := modifyAt i (fun ws => { ws with connected := true }) p.websockets }
  | PoolOp.disconnect i =>
    { p with websockets := modifyAt i (fun ws => { ws with connected := false }) p.websockets }

/-- Apply a sequence of pool events in order. -/
def applyOps (cfg : Config) (ops : List (PoolOp κ)) (p : WebsocketPool κ) :
    WebsocketPool κ :=
  ops.foldl (applyOp cfg) p

/-- The keys of a websocket's topic dict. -/
def wsKeys (ws : Websocket κ) : List κ := ws.topics.map Prod.fst

/-- All topic keys in the pool, connection by connection. -/
def poolKeys (p : WebsocketPool κ) : List κ := (p.websockets.map wsKeys).flatten

/-- The total topic count of the pool (the `total_topics` sum of
`_optimize_pool`). -/
def poolTotalTopics (p : WebsocketPool κ) : Nat :=
  (p.websockets.map (fun ws => ws.topics.length)).sum

/-- How many connections carry a given topic key. -/
def countKey (p : WebsocketPool κ) (k : κ) : Nat := (poolKeys p).count k

/-- The topic dict is keyed by the string form of its values: every stored
pair binds a topic under exactly `str(topic)`. -/
def keyedWs (ws : Websocket κ) : Prop := ∀ pr ∈ ws.topics, pr.2.key = pr.1

/-- Well-formedness of a pool state: every dict is keyed by the string form
of its values, no topic key occurs twice anywhere in the pool, no connection
exceeds its topic capacity, and the pool respects the connection maximum. -/
def PoolWF (cfg : Config) (p : WebsocketPool κ) : Prop :=
  (∀ ws ∈ p.websockets, keyedWs ws) ∧
  (poolKeys p).Nodup ∧
  (∀ ws ∈ p.websockets, ws.topics.length ≤ cfg.wsTopicsLimit) ∧
  p.websockets.length ≤ cfg.maxWebsockets

instance keyedWsDecidable (ws : Websocket κ) : Decidable (keyedWs ws) :=
  decidable_of_iff (∀ pr ∈ ws.topics, pr.2.key = pr.1) Iff.rfl

instance poolWFDecidable (cfg : Config) (p : WebsocketPool κ) : Decidable (PoolWF cfg p) :=
  decidable_of_iff ((∀ ws ∈ p.websockets, keyedWs ws) ∧
    (poolKeys p).Nodup ∧
    (∀ ws ∈ p.websockets, ws.topics.length ≤ cfg.wsTopicsLimit) ∧
    p.websockets.length ≤ cfg.maxWebsockets) Iff.rfl

/-- Free capacity that pool `add_topics` can use on an existing websocket:
positive only when the websocket is connected and below the capacity limit. -/
def spare (cap : Nat) (ws : Websocket κ) : Nat :=
  if ws.connected = true ∧ ws.topics.length < cap then cap - ws.topics.length else 0

/-- The kinds of outbound frames the connection writes. -/
inductive MsgType where
  | PING
  | LISTEN
  | UNLISTEN
deriving DecidableEq

/-- An outbound JSON frame: its type, the `data.topics` list, the
`data.auth_token` field and the `nonce` field (absent fields are `none`). -/
structure OutMessage (κ : Type) where
  type : MsgType
  topics : List κ
  authToken : Option String
  nonce : Option String
deriving DecidableEq

/-- The external collaborators of one sync step: the auth provider's current
access token and the RNG behind `create_nonce` (an arbitrary stream of
characters from `CHARS_ASCII`, indexed by draw and position). -/
structure Env where
  token : String
  nonceChar : Nat → Nat → Char

/-- Modelled from the spec: `create_nonce(CHARS_ASCII, 30)` (from `utils.py`,
not among the sources) returns a fresh random 30-character string; the `i`-th
draw of the RNG stream. -/
def createNonce (env : Env) (i : Nat) : String :=
  String.mk ((List.range 30).map (env.nonceChar i))

/-- `Websocket.send` (lines 356-362), message-shaping part: every message
whose type is not `PING` gets a freshly drawn 30-character nonce attached;
`PING` frames are sent untouched. -/
def send (env : Env) (ctr : Nat) (m : OutMessage κ) : OutMessage κ :=
  if m.type = MsgType.PING then m
  else { m with nonce := some (createNonce env ctr) }

/-- `Websocket._handle_topics` (lines 202-239): if no topic change is
pending, do nothing; otherwise clear the flag, fetch the auth token, diff the
submitted set against the current topic values, send one batched `UNLISTEN`
for submitted-but-gone topics and one batched `LISTEN` for
current-but-unsubmitted topics, updating `submitted` after each send.  Each
sent control message draws the next nonce. -/
def Websocket.handleTopics (env : Env) (ws : Websocket κ) :
    Websocket κ × List (OutMessage κ) :=
  if ws.topicsChanged = false then (ws, [])
  else
    let w1 : Websocket κ := { ws with topicsChanged := false }
    let current : List (WebsocketTopic κ) := w1.topics.map Prod.snd
    let removed := w1.submitted.filter (fun t => decide (t ∉ current))
    let w2 : Websocket κ :=
      if removed.isEmpty then w1
      else { w1 with submitted := w1.submitted.filter (fun t => decide (t ∉ removed)),
                     nonceCtr := w1.nonceCtr + 1 }
    let msgs1 : List (OutMessage κ) :=
      if removed.isEmpty then []
      else [send env w1.nonceCtr
        { type := MsgType.UNLISTEN, topics := removed.map (fun t => t.key),
          authToken := some env.token, nonce := none }]
    let added := current.filter (fun t => decide (t ∉ w2.submitted))
    if added.isEmpty then (w2, msgs1)
    else
      ({ w2 with submitted := w2.submitted ++ added, nonceCtr := w2.nonceCtr + 1 },
        msgs1 ++ [send env w2.nonceCtr
          { type := MsgType.LISTEN, topics := added.map (fun t => t.key),
            authToken := some env.token, nonce := none }])

/-- The `finally` block of the steady-state loop of `Websocket._handle`
(lines 169-173): on every disconnect the socket handle and the submitted set
are cleared and `_topics_changed` is set so the next connection resubscribes;
the topic dict is left intact. -/
def Websocket.onReconnect (ws : Websocket κ) : Websocket κ :=
  { ws with connected := false, submitted := [], topicsChanged := true }

/-- The heartbeat state of a connection: the `_next_ping` and `_max_pong`
deadlines and the `_reconnect_requested` event. -/
structure PingState where
  nextPing : ℚ
  maxPong : ℚ
  reconnectRequested : Bool
deriving DecidableEq

/-- The heartbeat fields set in `Websocket.__init__` (lines 55-56):
`_next_ping = time()`, `_max_pong = _next_ping + PING_TIMEOUT`. -/
def initPing (t0 timeout : ℚ) : PingState := ⟨t0, t0 + timeout, false⟩

/-- `Websocket.request_reconnect` (lines 77-80): reset the ping deadline to
now (forcing a PING right after reconnect) and set the reconnect event. -/
def requestReconnect (now : ℚ) (s : PingState) : PingState :=
  { s with nextPing := now, reconnectRequested := true }

/-- What one `_handle_ping` call did. -/
inductive PingAction where
  | pinged
  | reconnected
  | idle
deriving DecidableEq

/-- `Websocket._handle_ping` (lines 191-200): when the ping deadline passed,
advance it by the interval, arm the pong deadline and send the bare PING
frame; otherwise, when the pong deadline passed without an answer, request a
reconnect; otherwise do nothing.  The PING frame draws no nonce, so the RNG
index passed to `send` is immaterial. -/
def handlePing (κ : Type) (env : Env) (interval timeout now : ℚ) (s : PingState) :
    PingState × PingAction × List (OutMessage κ) :=
  if s.nextPing ≤ now then
    ({ s with nextPing := now + interval, maxPong := now + timeout },
      PingAction.pinged,
      [send env 0 { type := MsgType.PING, topics := [], authToken := none, nonce := none }])
  else if s.maxPong ≤ now then
    (requestReconnect now s, PingAction.reconnected, [])
  else (s, PingAction.idle, [])

/-- The steady-state loop of `_handle` (lines 165-168) restricted to its
heartbeat duty, driven by the clock readings at which successive iterations
reach `_handle_ping`, with no inbound frames (so no `PONG` ever refreshes
`_max_pong`): the loop exits as soon as `_reconnect_requested` is set.
Returns the final heartbeat state and how many reconnect requests were
issued. -/
def runChecks (env : Env) (interval timeout : ℚ) :
    List ℚ → PingState → PingState × Nat
  | [], s => (s, 0)
  | t :: ts, s =>
    if s.reconnectRequested = true then (s, 0)
    else
      let r := handlePing Nat env interval timeout t s
      let rest := runChecks env interval timeout ts r.1
      (rest.1, (if r.2.1 = PingAction.reconnected then 1 else 0) + rest.2)

/-- A list of `n` distinct topics with numeric keys `0, 1, ..., n-1`, used to
instantiate capacity scenarios. -/
def natTopics (n : Nat) : List (WebsocketTopic Nat) :=
  (List.range n).map (fun i => ⟨i⟩)

/-- A concrete environment for scenarios: a fixed token and a constant RNG. -/
def env0 : Env := ⟨"token", fun _ _ => 'a'⟩

/-- A connected websocket holding the given numeric topic keys and nothing
submitted, used to instantiate pool scenarios. -/
def mkConnWs (i : Nat) (ksl : List Nat) : Websocket Nat :=
  ⟨i, ksl.map (fun k => (k, ⟨k⟩)), [], false, true, false, 0⟩

/-- A connected websocket whose submitted set matches its topics (a fully
synced connection), used to instantiate sync scenarios. -/
def mkSyncWs (i : Nat) (ksl : List Nat) : Websocket Nat :=
  ⟨i, ksl.map (fun k => (k, ⟨k⟩)), ksl.map (fun k => ⟨k⟩), false, true, false, 0⟩

/-- A running two-connection pool holding one topic per connection, used to
instantiate the consolidation scenario. -/
def poolC2 : WebsocketPool Nat := ⟨true, [mkConnWs 0 [0], mkConnWs 1 [1]], 2⟩

/-- A fully synced connection with a pending topic change, used to
instantiate the sync-invariant scenario. -/
def wsC3 : Websocket Nat := { mkSyncWs 0 [3] with topicsChanged := true }

/-! ### General list helpers -/

theorem flatten_perm_of_perm {α : Type _} {l₁ l₂ : List (List α)} (h : l₁.Perm l₂) :
    l₁.flatten.Perm l₂.flatten := by
  induction h with
  | nil => exact List.Perm.refl _
  | cons x _ ih => simpa using ih.append_left x
  | swap x y l =>
    simp only [List.flatten_cons, ← List.append_assoc]
    exact (List.perm_append_comm).append_right _
  | trans _ _ ih₁ ih₂ => exact ih₁.trans ih₂

theorem flatten_sublist_of_sublist {α : Type _} {l₁ l₂ : List (List α)}
    (h : l₁.Sublist l₂) : l₁.flatten.Sublist l₂.flatten := by
  induction h with
  | slnil => exact List.Sublist.refl _
  | cons a _ ih => exact ih.trans (List.sublist_append_right a _)
  | cons₂ a _ ih => simpa using ih.append_left a

theorem take_add_split {α : Type _} : ∀ (m n : Nat) (l : List α),
    l.take (m + n) = l.take m ++ (l.drop m).take n
  | 0, _, _ => by simp
  | _ + 1, _, [] => by simp
  | m + 1, n, a :: l => by
    simp only [Nat.succ_add, List.take_succ_cons, List.drop_succ_cons, List.cons_append,
      List.cons.injEq, true_and]
    exact take_add_split m n l

theorem topic_key_inj {t₁ t₂ : WebsocketTopic κ} (h : t₁.key = t₂.key) : t₁ = t₂ := by
  cases t₁; cases t₂; simpa using h

theorem nodup_map_key {ts : List (WebsocketTopic κ)} (h : ts.Nodup) :
    (ts.map (fun t => t.key)).Nodup :=
  h.map (fun _ _ h => topic_key_inj h)

/-! ### Python set and dict helpers -/

theorem mem_dedup {a : WebsocketTopic κ} : ∀ {ts : List (WebsocketTopic κ)},
    a ∈ dedup ts ↔ a ∈ ts
  | [] => Iff.rfl
  | b :: ts => by
    simp only [dedup]
    by_cases hb : b ∈ dedup ts
    · simp only [if_pos hb, List.mem_cons]
      constructor
      · exact fun h => Or.inr (mem_dedup.mp h)
      · rintro (rfl | h)
        · exact hb
        · exact mem_dedup.mpr h
    · rw [if_neg hb]
      simp only [List.mem_cons, mem_dedup]

theorem dedup_nodup : ∀ (ts : List (WebsocketTopic κ)), (dedup ts).Nodup
  | [] => List.nodup_nil
  | b :: ts => by
    simp only [dedup]
    by_cases hb : b ∈ dedup ts
    · simpa [hb] using dedup_nodup ts
    · rw [if_neg hb]
      exact List.nodup_cons.mpr ⟨hb, dedup_nodup ts⟩

theorem dedup_eq_self {ts : List (WebsocketTopic κ)} (h : ts.Nodup) : dedup ts = ts := by
  induction ts with
  | nil => rfl
  | cons b ts ih =>
    have hb : b ∉ ts := (List.nodup_cons.mp h).1
    have ih' := ih (List.nodup_cons.mp h).2
    simp only [dedup, ih']
    simp [hb]

theorem mem_dedupKeys {a : κ} : ∀ {ks : List κ}, a ∈ dedupKeys ks ↔ a ∈ ks
  | [] => Iff.rfl
  | b :: ks => by
    simp only [dedupKeys]
    by_cases hb : b ∈ dedupKeys ks
    · simp only [if_pos hb, List.mem_cons]
      constructor
      · exact fun h => Or.inr (mem_dedupKeys.mp h)
      · rintro (rfl | h)
        · exact hb
        · exact mem_dedupKeys.mpr h
    · rw [if_neg hb]
      simp only [List.mem_cons, mem_dedupKeys]

theorem dictInsert_of_not_mem {k : κ} {v : WebsocketTopic κ} :
    ∀ {d : List (κ × WebsocketTopic κ)}, k ∉ d.map Prod.fst →
      dictInsert k v d = d ++ [(k, v)]
  | [], _ => rfl
  | p :: rest, h => by
    have h1 : p.1 ≠ k := by
      intro hk
      exact h (by simp [hk])
    have h2 : k ∉ rest.map Prod.fst := fun hm => h (by simp [hm])
    simp only [dictInsert, if_neg h1, List.cons_append, List.cons.injEq, true_and]
    exact dictInsert_of_not_mem h2

theorem dictInsert_keyed {k : κ} {v : WebsocketTopic κ} (hv : v.key = k) :
    ∀ {d : List (κ × WebsocketTopic κ)}, (∀ pr ∈ d, pr.2.key = pr.1) →
      ∀ pr ∈ dictInsert k v d, pr.2.key = pr.1
  | [], _ => by simpa [dictInsert] using hv
  | p :: rest, h => by
    simp only [dictInsert]
    by_cases hp : p.1 = k
    · simp only [if_pos hp]
      intro pr hpr
      rcases List.mem_cons.mp hpr with rfl | hm
      · simpa using hv
      · exact h pr (List.mem_cons_of_mem _ hm)
    · simp only [if_neg hp]
      intro pr hpr
      rcases List.mem_cons.mp hpr with rfl | hm
      · exact h pr (List.mem_cons_self _ _)
      · exact dictInsert_keyed hv (fun q hq => h q (List.mem_cons_of_mem _ hq)) pr hm

theorem dictInsert_length_le {k : κ} {v : WebsocketTopic κ} :
    ∀ (d : List (κ × WebsocketTopic κ)), (dictInsert k v d).length ≤ d.length + 1
  | [] => by simp [dictInsert]
  | p :: rest => by
    simp only [dictInsert]
    by_cases hp : p.1 = k
    · simp [hp]
    · simpa [hp, Nat.succ_le_succ_iff] using dictInsert_length_le rest

/-! ### The Websocket.add_topics loop -/

theorem wsAddTopicsAux_spec (cap : Nat) :
    ∀ (ts : List (WebsocketTopic κ)) (d : List (κ × WebsocketTopic κ)) (ch : Bool),
      ((d.map Prod.fst) ++ ts.map (fun t => t.key)).Nodup →
        wsAddTopicsAux cap ts d ch =
          (d ++ (ts.take (min (cap - d.length) ts.length)).map (fun t => (t.key, t)),
           ts.drop (min (cap - d.length) ts.length),
           ch || decide (0 < min (cap - d.length) ts.length))
  | [], d, ch, _ => by simp [wsAddTopicsAux]
  | t :: ts, d, ch, h => by
    simp only [wsAddTopicsAux]
    by_cases hlt : d.length < cap
    · have hkey : t.key ∉ d.map Prod.fst := by
        have hdisj := (List.nodup_append.mp h).2.2
        intro hm
        exact hdisj hm (by simp)
      have hins : dictInsert t.key t d = d ++ [(t.key, t)] := dictInsert_of_not_mem hkey
      have h' : (((d ++ [(t.key, t)]).map Prod.fst) ++ ts.map (fun t => t.key)).Nodup := by
        simpa [List.append_assoc] using h
      have ih := wsAddTopicsAux_spec cap ts (d ++ [(t.key, t)]) true h'
      rw [if_pos hlt, hins, ih]
      have hlen : (d ++ [(t.key, t)]).length = d.length + 1 := by simp
      have hn : min (cap - d.length) (ts.length + 1) =
          min (cap - (d.length + 1)) ts.length + 1 := by omega
      simp only [hlen, List.length_cons, hn, Prod.mk.injEq]
      refine ⟨?_, ?_, ?_⟩
      · rw [List.take_succ_cons, List.map_cons, List.append_assoc]
        rfl
      · rw [List.drop_succ_cons]
      · simp
    · have hz : min (cap - d.length) (t :: ts).length = 0 := by
        simp only [List.length_cons]; omega
      rw [if_neg hlt, hz]
      simp

theorem wsAddTopicsAux_len_le (cap : Nat) :
    ∀ (ts : List (WebsocketTopic κ)) (d : List (κ × WebsocketTopic κ)) (ch : Bool),
      d.length ≤ cap → (wsAddTopicsAux cap ts d ch).1.length ≤ cap
  | [], _, _, h => h
  | t :: ts, d, ch, h => by
    simp only [wsAddTopicsAux]
    by_cases hlt : d.length < cap
    · rw [if_pos hlt]
      exact wsAddTopicsAux_len_le cap ts _ true
        (le_trans (dictInsert_length_le d) hlt)
    · rw [if_neg hlt]; exact h

theorem wsAddTopicsAux_keyed (cap : Nat) :
    ∀ (ts : List (WebsocketTopic κ)) (d : List (κ × WebsocketTopic κ)) (ch : Bool),
      (∀ pr ∈ d, pr.2.key = pr.1) →
        ∀ pr ∈ (wsAddTopicsAux cap ts d ch).1, pr.2.key = pr.1
  | [], _, _, h => h
  | t :: ts, d, ch, h => by
    simp only [wsAddTopicsAux]
    by_cases hlt : d.length < cap
    · rw [if_pos hlt]
      exact wsAddTopicsAux_keyed cap ts _ true (dictInsert_keyed rfl h)
    · rw [if_neg hlt]; exact h

/-! ### Websocket-level add/remove lemmas -/

theorem Websocket.addTopics_eq (cap : Nat) (ws : Websocket κ)
    (ts : List (WebsocketTopic κ))
    (h : ((ws.topics.map Prod.fst) ++ ts.map (fun t => t.key)).Nodup) :
    ws.addTopics cap ts =
      ({ ws with
          topics := ws.topics ++
            (ts.take (min (cap - ws.topics.length) ts.length)).map (fun t => (t.key, t)),
          topicsChanged := ws.topicsChanged ||
            decide (0 < min (cap - ws.topics.length) ts.length) },
        ts.drop (min (cap - ws.topics.length) ts.length)) := by
  simp only [Websocket.addTopics, wsAddTopicsAux_spec cap ts ws.topics false h,
    Bool.false_or]

theorem Websocket.addTopics_keyed {cap : Nat} {ws : Websocket κ}
    {ts : List (WebsocketTopic κ)} (h : keyedWs ws) :
    keyedWs (ws.addTopics cap ts).1 := by
  intro pr hpr
  exact wsAddTopicsAux_keyed cap ts ws.topics false h pr hpr

theorem Websocket.addTopics_len_le {cap : Nat} {ws : Websocket κ}
    {ts : List (WebsocketTopic κ)} (h : ws.topics.length ≤ cap) :
    (ws.addTopics cap ts).1.topics.length ≤ cap :=
  wsAddTopicsAux_len_le cap ts ws.topics false h

theorem Websocket.addTopics_connected (cap : Nat) (ws : Websocket κ)
    (ts : List (WebsocketTopic κ)) :
    (ws.addTopics cap ts).1.connected = ws.connected := rfl

theorem Websocket.removeTopics_topics (ws : Websocket κ) (ks : List κ) :
    (ws.removeTopics ks).1.topics = ws.topics ∨
      (ws.removeTopics ks).1.topics =
        ws.topics.filter (fun p => decide (p.1 ∉
          ks.filter (fun k => decide (k ∈ ws.topics.map Prod.fst)))) := by
  simp only [Websocket.removeTopics]
  by_cases he : (ks.filter (fun k => decide (k ∈ ws.topics.map Prod.fst))).isEmpty
  · rw [if_pos he]; exact Or.inl rfl
  · rw [if_neg he]; exact Or.inr rfl

/-! ### The first placement loop of pool add_topics -/

theorem fillExisting_length (cap : Nat) :
    ∀ (wss : List (Websocket κ)) (ts : List (WebsocketTopic κ)),
      (fillExisting cap wss ts).1.length = wss.length
  | [], _ => rfl
  | ws :: wss, ts => by
    simp only [fillExisting]
    by_cases hc : ws.connected = true ∧ ws.topics.length < cap
    · rw [if_pos hc]
      by_cases he : (ws.addTopics cap ts).2.isEmpty
      · simp [he]
      · simp [he, fillExisting_length cap wss]
    · rw [if_neg hc]
      simp [fillExisting_length cap wss]

theorem fillExisting_keyed (cap : Nat) :
    ∀ (wss : List (Websocket κ)) (ts : List (WebsocketTopic κ)),
      (∀ ws ∈ wss, keyedWs ws) →
        ∀ ws ∈ (fillExisting cap wss ts).1, keyedWs ws
  | [], _, h => h
  | ws :: wss, ts, h => by
    have hws := h ws (List.mem_cons_self _ _)
    have hrest : ∀ w ∈ wss, keyedWs w := fun w hw => h w (List.mem_cons_of_mem _ hw)
    simp only [fillExisting]
    by_cases hc : ws.connected = true ∧ ws.topics.length < cap
    · rw [if_pos hc]
      by_cases he : (ws.addTopics cap ts).2.isEmpty
      · rw [if_pos he]
        intro w hw
        rcases List.mem_cons.mp hw with rfl | hm
        · exact Websocket.addTopics_keyed hws
        · exact hrest w hm
      · rw [if_neg he]
        intro w hw
        rcases List.mem_cons.mp hw with rfl | hm
        · exact Websocket.addTopics_keyed hws
        · exact fillExisting_keyed cap wss _ hrest w hm
    · rw [if_neg hc]
      intro w hw
      rcases List.mem_cons.mp hw with rfl | hm
      · exact hws
      · exact fillExisting_keyed cap wss _ hrest w hm

theorem fillExisting_len_le (cap : Nat) :
    ∀ (wss : List (Websocket κ)) (ts : List (WebsocketTopic κ)),
      (∀ ws ∈ wss, ws.topics.length ≤ cap) →
        ∀ ws ∈ (fillExisting cap wss ts).1, ws.topics.length ≤ cap
  | [], _, h => h
  | ws :: wss, ts, h => by
    have hws := h ws (List.mem_cons_self _ _)
    have hrest : ∀ w ∈ wss, w.topics.length ≤ cap :=
      fun w hw => h w (List.mem_cons_of_mem _ hw)
    simp only [fillExisting]
    by_cases hc : ws.connected = true ∧ ws.topics.length < cap
    · rw [if_pos hc]
      by_cases he : (ws.addTopics cap ts).2.isEmpty
      · rw [if_pos he]
        intro w hw
        rcases List.mem_cons.mp hw with rfl | hm
        · exact Websocket.addTopics_len_le hws
        · exact hrest w hm
      · rw [if_neg he]
        intro w hw
        rcases List.mem_cons.mp hw with rfl | hm
        · exact Websocket.addTopics_len_le hws
        · exact fillExisting_len_le cap wss _ hrest w hm
    · rw [if_neg hc]
      intro w hw
      rcases List.mem_cons.mp hw with rfl | hm
      · exact hws
      · exact fillExisting_len_le cap wss _ hrest w hm

theorem append_swap_right {α : Type _} (A T R : List α) :
    ((A ++ T) ++ R).Perm ((A ++ R) ++ T) := by
  rw [List.append_assoc, List.append_assoc]
  exact List.Perm.append_left A List.perm_append_comm

theorem append_shuffle {α : Type _} (A K₁ R K₂ : List α) :
    ((A ++ K₁) ++ (R ++ K₂)).Perm ((A ++ R) ++ (K₁ ++ K₂)) := by
  rw [List.append_assoc, List.append_assoc]
  refine List.Perm.append_left A ?_
  have h1 : K₁ ++ (R ++ K₂) = (K₁ ++ R) ++ K₂ := (List.append_assoc _ _ _).symm
  have h2 : ((K₁ ++ R) ++ K₂).Perm ((R ++ K₁) ++ K₂) :=
    List.perm_append_comm.append_right _
  have h3 : (R ++ K₁) ++ K₂ = R ++ (K₁ ++ K₂) := List.append_assoc _ _ _
  rw [h1]
  exact h2.trans (h3 ▸ List.Perm.refl _)

theorem fillExisting_spec (cap : Nat) :
    ∀ (wss : List (Websocket κ)) (ts : List (WebsocketTopic κ)),
      ((wss.map wsKeys).flatten ++ ts.map (fun t => t.key)).Nodup →
        (fillExisting cap wss ts).2 =
            ts.drop (min ((wss.map (spare cap)).sum) ts.length) ∧
          ((fillExisting cap wss ts).1.map wsKeys).flatten.Perm
            ((wss.map wsKeys).flatten ++
              (ts.take (min ((wss.map (spare cap)).sum) ts.length)).map (fun t => t.key))
  | [], ts, _ => by
    constructor
    · simp [fillExisting]
    · simp only [fillExisting, List.map_nil, List.flatten_nil, List.sum_nil,
        List.nil_append, Nat.zero_min, List.take_zero]
      exact List.Perm.refl _
  | ws :: wss, ts, h => by
    have hflat : ((ws :: wss).map wsKeys).flatten =
        wsKeys ws ++ (wss.map wsKeys).flatten := by simp
    rw [hflat] at h
    have haux : ((ws.topics.map Prod.fst) ++ ts.map (fun t => t.key)).Nodup := by
      refine List.Nodup.sublist ?_ h
      have s1 : (ts.map (fun t => t.key)).Sublist
          ((wss.map wsKeys).flatten ++ ts.map (fun t => t.key)) :=
        List.sublist_append_right _ _
      have s2 : (wsKeys ws ++ ts.map (fun t => t.key)).Sublist
          (wsKeys ws ++ ((wss.map wsKeys).flatten ++ ts.map (fun t => t.key))) :=
        s1.append_left _
      rw [List.append_assoc]
      exact s2
    have hrestNodup : ((wss.map wsKeys).flatten ++ ts.map (fun t => t.key)).Nodup := by
      refine List.Nodup.sublist ?_ h
      rw [List.append_assoc]
      exact List.sublist_append_right _ _
    simp only [fillExisting]
    by_cases hc : ws.connected = true ∧ ws.topics.length < cap
    · rw [if_pos hc]
      have heq := Websocket.addTopics_eq cap ws ts haux
      have hspare : spare cap ws = cap - ws.topics.length := by
        simp [spare, hc]
      by_cases he : (ws.addTopics cap ts).2.isEmpty
      · rw [if_pos he]
        have hdrop : ts.drop (min (cap - ws.topics.length) ts.length) = [] := by
          have := congrArg Prod.snd heq
          simp only at this
          rw [← this]
          exact List.isEmpty_iff.mp he
        have hklen : min (cap - ws.topics.length) ts.length = ts.length := by
          have hle := List.drop_eq_nil_iff.mp hdrop
          omega
        have hn : min ((((ws :: wss).map (spare cap)).sum)) ts.length = ts.length := by
          simp only [List.map_cons, List.sum_cons, hspare]
          omega
        constructor
        · rw [hn, List.drop_length]
        · have hkeys : wsKeys (ws.addTopics cap ts).1 =
              ws.topics.map Prod.fst ++
                (ts.take (min (cap - ws.topics.length) ts.length)).map (fun t => t.key) := by
            have := congrArg Prod.fst heq
            simp only at this
            rw [wsKeys, this]
            simp [Function.comp_def]
          rw [hn, hklen] at *
          simp only [List.map_cons, List.flatten_cons, hkeys, hklen]
          rw [List.take_length] at *
          exact append_swap_right _ _ _
      · rw [if_neg he]
        have hne : ts.drop (min (cap - ws.topics.length) ts.length) ≠ [] := by
          intro hnil
          apply he
          have := congrArg Prod.snd heq
          simp only at this
          rw [List.isEmpty_iff, this, hnil]
        have hklt : min (cap - ws.topics.length) ts.length < ts.length := by
          rcases Nat.lt_or_ge (min (cap - ws.topics.length) ts.length) ts.length with hlt | hge
          · exact hlt
          · exfalso
            exact hne (List.drop_eq_nil_of_le hge)
        have hkeq : min (cap - ws.topics.length) ts.length = cap - ws.topics.length := by
          omega
        have hrec : ((wss.map wsKeys).flatten ++
            ((ts.drop (cap - ws.topics.length)).map (fun t => t.key))).Nodup := by
          rw [List.map_drop]
          refine List.Nodup.sublist ?_ h
          have s1 : ((ts.map (fun t => t.key)).drop (cap - ws.topics.length)).Sublist
              (ts.map (fun t => t.key)) := List.drop_sublist _ _
          have s2 : ((wss.map wsKeys).flatten ++
              (ts.map (fun t => t.key)).drop (cap - ws.topics.length)).Sublist
              ((wss.map wsKeys).flatten ++ ts.map (fun t => t.key)) :=
            s1.append_left _
          refine s2.trans ?_
          rw [List.append_assoc]
          exact List.sublist_append_right _ _
        have ih := fillExisting_spec cap wss (ts.drop (cap - ws.topics.length)) hrec
        rw [heq]
        dsimp only
        rw [hkeq]
        have hlen2 : (ts.drop (cap - ws.topics.length)).length =
            ts.length - (cap - ws.topics.length) := List.length_drop _ _
        have hn : min (((ws :: wss).map (spare cap)).sum) ts.length =
            (cap - ws.topics.length) +
              min ((wss.map (spare cap)).sum) (ts.drop (cap - ws.topics.length)).length := by
          simp only [List.map_cons, List.sum_cons, hspare, hlen2]
          omega
        constructor
        · rw [ih.1, List.drop_drop, hn]
        · rw [hn]
          simp only [List.map_cons, List.flatten_cons]
          have hkeys : wsKeys ({ ws with
              topics := ws.topics ++
                (ts.take (cap - ws.topics.length)).map (fun t => (t.key, t)),
              topicsChanged := ws.topicsChanged ||
                decide (0 < cap - ws.topics.length) } : Websocket κ) =
              ws.topics.map Prod.fst ++
                (ts.take (cap - ws.topics.length)).map (fun t => t.key) := by
            rw [wsKeys]
            simp [Function.comp_def]
          rw [hkeys]
          have htake : (ts.take ((cap - ws.topics.length) +
              min ((wss.map (spare cap)).sum)
                (ts.drop (cap - ws.topics.length)).length)).map (fun t => t.key) =
              (ts.take (cap - ws.topics.length)).map (fun t => t.key) ++
              ((ts.drop (cap - ws.topics.length)).take
                (min ((wss.map (spare cap)).sum)
                  (ts.drop (cap - ws.topics.length)).length)).map (fun t => t.key) := by
            rw [take_add_split, List.map_append]
          rw [htake]
          refine (List.Perm.append_left _ ih.2).trans ?_
          exact append_shuffle _ _ _ _
    · rw [if_neg hc]
      have hspare : spare cap ws = 0 := by simp [spare, hc]
      have ih := fillExisting_spec cap wss ts hrestNodup
      have hn : min (((ws :: wss).map (spare cap)).sum) ts.length =
          min ((wss.map (spare cap)).sum) ts.length := by
        simp only [List.map_cons, List.sum_cons, hspare, Nat.zero_add]
      constructor
      · rw [hn]; exact ih.1
      · rw [hn]
        simp only [List.map_cons, List.flatten_cons]
        refine (List.Perm.append_left _ ih.2).trans ?_
        rw [List.append_assoc]

/-! ### The new-websocket loop of pool add_topics -/

theorem poolKeys_websockets (p : WebsocketPool κ) :
    poolKeys p = (p.websockets.map wsKeys).flatten := rfl

theorem addNewAux_spec (cfg : Config) :
    ∀ (fuel : Nat) (p : WebsocketPool κ) (ts : List (WebsocketTopic κ)) (idx : Nat),
      ts ≠ [] →
      (poolKeys p ++ ts.map (fun t => t.key)).Nodup →
        ((addNewAux cfg fuel p ts idx).2 = true ↔
            fuel * cfg.wsTopicsLimit < ts.length) ∧
          poolKeys (addNewAux cfg fuel p ts idx).1 =
            poolKeys p ++
              (ts.take (min (fuel * cfg.wsTopicsLimit) ts.length)).map (fun t => t.key) ∧
          (addNewAux cfg fuel p ts idx).1.websockets.length =
            p.websockets.length +
              (if fuel * cfg.wsTopicsLimit < ts.length then fuel
               else (ts.length + cfg.wsTopicsLimit - 1) / cfg.wsTopicsLimit) ∧
          ((∀ ws ∈ p.websockets, keyedWs ws) →
            ∀ ws ∈ (addNewAux cfg fuel p ts idx).1.websockets, keyedWs ws) ∧
          ((∀ ws ∈ p.websockets, ws.topics.length ≤ cfg.wsTopicsLimit) →
            ∀ ws ∈ (addNewAux cfg fuel p ts idx).1.websockets,
              ws.topics.length ≤ cfg.wsTopicsLimit)
  | 0, p, ts, idx, hne, _ => by
    have hpos : 0 < ts.length := List.length_pos.mpr hne
    simp only [addNewAux, Nat.zero_mul]
    refine ⟨by simpa using hpos, by simp, by simp [hpos], fun h => h, fun h => h⟩
  | fuel + 1, p, ts, idx, hne, h => by
    have hpos : 0 < ts.length := List.length_pos.mpr hne
    have cap : Nat := cfg.wsTopicsLimit
    have hnodups : (((newWebsocket idx : Websocket κ).topics.map Prod.fst) ++
        ts.map (fun t => t.key)).Nodup := by
      simpa [newWebsocket] using (List.nodup_append.mp h).2.1
    have heq := Websocket.addTopics_eq cfg.wsTopicsLimit (newWebsocket idx) ts hnodups
    have hlen0 : (newWebsocket idx : Websocket κ).topics.length = 0 := rfl
    rw [hlen0, Nat.sub_zero] at heq
    have hwk : wsKeys ((newWebsocket idx : Websocket κ).addTopics cfg.wsTopicsLimit ts).1 =
        (ts.take (min cfg.wsTopicsLimit ts.length)).map (fun t => t.key) := by
      rw [heq, wsKeys]
      simp [newWebsocket, Function.comp_def]
    have hkeyed : keyedWs ((newWebsocket idx : Websocket κ).addTopics cfg.wsTopicsLimit ts).1 :=
      Websocket.addTopics_keyed (by intro pr hpr; simp [newWebsocket] at hpr)
    have hlenle : ((newWebsocket idx : Websocket κ).addTopics cfg.wsTopicsLimit ts).1.topics.length ≤
        cfg.wsTopicsLimit :=
      Websocket.addTopics_len_le (by simp [newWebsocket])
    have hsnd : ((newWebsocket idx : Websocket κ).addTopics cfg.wsTopicsLimit ts).2 =
        ts.drop (min cfg.wsTopicsLimit ts.length) := by rw [heq]
    simp only [addNewAux]
    by_cases he : ((newWebsocket idx : Websocket κ).addTopics cfg.wsTopicsLimit ts).2.isEmpty
    · rw [if_pos he]
      have hdropnil : ts.drop (min cfg.wsTopicsLimit ts.length) = [] := by
        rw [← hsnd]; exact List.isEmpty_iff.mp he
      have hklen : min cfg.wsTopicsLimit ts.length = ts.length := by
        have := List.drop_eq_nil_iff.mp hdropnil
        omega
      have htlecap : ts.length ≤ cfg.wsTopicsLimit := by omega
      have hnotlt : ¬ (fuel + 1) * cfg.wsTopicsLimit < ts.length := by
        rw [Nat.succ_mul]
        omega
      have hceil : (ts.length + cfg.wsTopicsLimit - 1) / cfg.wsTopicsLimit = 1 := by
        refine Nat.div_eq_of_lt_le ?_ ?_
        · omega
        · omega
      refine ⟨by simp [hnotlt], ?_, ?_, ?_, ?_⟩
      · simp only [poolKeys_websockets, List.map_append, List.flatten_append]
        rw [Nat.succ_mul]
        have hmin2 : min (fuel * cfg.wsTopicsLimit + cfg.wsTopicsLimit) ts.length =
            ts.length := by omega
        rw [hmin2, List.take_length]
        simp [hwk, hklen]
      · simp only [List.length_append, List.length_cons, List.length_nil]
        rw [if_neg hnotlt, hceil]
      · intro hk ws hws
        simp only [List.mem_append, List.mem_cons] at hws
        rcases hws with hm | hm
        · exact hk ws hm
        · rcases hm with rfl | hfalse
          · exact hkeyed
          · exact absurd hfalse (List.not_mem_nil _)
      · intro hk ws hws
        simp only [List.mem_append, List.mem_cons] at hws
        rcases hws with hm | hm
        · exact hk ws hm
        · rcases hm with rfl | hfalse
          · exact hlenle
          · exact absurd hfalse (List.not_mem_nil _)
    · rw [if_neg he]
      have hdropne : ts.drop (min cfg.wsTopicsLimit ts.length) ≠ [] := by
        rw [← hsnd]
        intro hnil
        exact he (by rw [List.isEmpty_iff, hnil])
      have hklt : min cfg.wsTopicsLimit ts.length < ts.length := by
        rcases Nat.lt_or_ge (min cfg.wsTopicsLimit ts.length) ts.length with hlt | hge
        · exact hlt
        · exact absurd (List.drop_eq_nil_of_le hge) hdropne
      have hkeq : min cfg.wsTopicsLimit ts.length = cfg.wsTopicsLimit := by omega
      have hcaplt : cfg.wsTopicsLimit < ts.length := by omega
      rw [hkeq] at hsnd hwk hdropne
      set p1 : WebsocketPool κ :=
        { p with
            websockets := p.websockets ++
              [((newWebsocket idx : Websocket κ).addTopics cfg.wsTopicsLimit ts).1],
            connectionCount := p.connectionCount + 1 } with hp1
      have hp1keys : poolKeys p1 =
          poolKeys p ++ (ts.take cfg.wsTopicsLimit).map (fun t => t.key) := by
        simp only [hp1, poolKeys_websockets, List.map_append, List.flatten_append]
        simp [hwk]
      have hp1len : p1.websockets.length = p.websockets.length + 1 := by
        simp [hp1]
      have hsplit : ts.map (fun t => t.key) =
          (ts.take cfg.wsTopicsLimit).map (fun t => t.key) ++
            (ts.drop cfg.wsTopicsLimit).map (fun t => t.key) := by
        rw [← List.map_append, List.take_append_drop]
      have hnodup1 : (poolKeys p1 ++ (ts.drop cfg.wsTopicsLimit).map (fun t => t.key)).Nodup := by
        rw [hp1keys, List.append_assoc]
        rw [hsplit] at h
        exact h
      have ih := addNewAux_spec cfg fuel p1 (ts.drop cfg.wsTopicsLimit) (idx + 1) hdropne hnodup1
      have hdl : (ts.drop cfg.wsTopicsLimit).length = ts.length - cfg.wsTopicsLimit :=
        List.length_drop _ _
      have hsndr : (((newWebsocket idx : Websocket κ).addTopics cfg.wsTopicsLimit ts).2) =
          ts.drop cfg.wsTopicsLimit := hsnd
      rw [hsndr]
      have hiff : (fuel * cfg.wsTopicsLimit < (ts.drop cfg.wsTopicsLimit).length) ↔
          ((fuel + 1) * cfg.wsTopicsLimit < ts.length) := by
        rw [hdl, Nat.succ_mul]
        omega
      refine ⟨?_, ?_, ?_, ?_, ?_⟩
      · rw [ih.1, hiff]
      · rw [ih.2.1, hp1keys, List.append_assoc]
        have hmin : min ((fuel + 1) * cfg.wsTopicsLimit) ts.length =
            cfg.wsTopicsLimit +
              min (fuel * cfg.wsTopicsLimit) (ts.drop cfg.wsTopicsLimit).length := by
          rw [hdl, Nat.succ_mul]
          omega
        rw [hmin, take_add_split, List.map_append]
      · rw [ih.2.2.1, hp1len]
        by_cases hb : (fuel + 1) * cfg.wsTopicsLimit < ts.length
        · rw [if_pos hb, if_pos (hiff.mpr hb)]
          omega
        · rw [if_neg hb, if_neg (fun hx => hb (hiff.mp hx))]
          by_cases hcap0 : cfg.wsTopicsLimit = 0
          · exfalso
            apply hb
            rw [hcap0, Nat.mul_zero]
            exact hpos
          · have hcappos : 0 < cfg.wsTopicsLimit := Nat.pos_of_ne_zero hcap0
            have e1 : (ts.drop cfg.wsTopicsLimit).length + cfg.wsTopicsLimit - 1 =
                ts.length - 1 := by
              rw [hdl]; omega
            have e2 : ts.length + cfg.wsTopicsLimit - 1 =
                (ts.length - 1) + cfg.wsTopicsLimit := by omega
            rw [e1, e2, Nat.add_div_right _ hcappos]
            omega
      · intro hk ws hws
        refine ih.2.2.2.1 ?_ ws hws
        intro w hw
        simp only [hp1, List.mem_append, List.mem_cons] at hw
        rcases hw with hm | hm
        · exact hk w hm
        · rcases hm with rfl | hfalse
          · exact hkeyed
          · exact absurd hfalse (List.not_mem_nil _)
      · intro hk ws hws
        refine ih.2.2.2.2 ?_ ws hws
        intro w hw
        simp only [hp1, List.mem_append, List.mem_cons] at hw
        rcases hw with hm | hm
        · exact hk w hm
        · rcases hm with rfl | hfalse
          · exact hlenle
          · exact absurd hfalse (List.not_mem_nil _)

/-! ### Pool add_topics: well-formedness and success -/

theorem mem_allValues_iff {p : WebsocketPool κ}
    (hkeyed : ∀ ws ∈ p.websockets, keyedWs ws) (t : WebsocketTopic κ) :
    t ∈ allTopicValues p ↔ t.key ∈ poolKeys p := by
  simp only [allTopicValues, poolKeys, List.mem_flatten, List.mem_map]
  constructor
  · rintro ⟨l, ⟨ws, hws, rfl⟩, hm⟩
    rcases List.mem_map.mp hm with ⟨pr, hpr, rfl⟩
    refine ⟨wsKeys ws, ⟨ws, hws, rfl⟩, ?_⟩
    rw [wsKeys]
    have := hkeyed ws hws pr hpr
    rw [this]
    exact List.mem_map_of_mem _ hpr
  · rintro ⟨l, ⟨ws, hws, rfl⟩, hm⟩
    rcases List.mem_map.mp hm with ⟨pr, hpr, hk⟩
    have hkey := hkeyed ws hws pr hpr
    have : pr.2 = t := topic_key_inj (by rw [hkey, hk])
    exact ⟨ws.topics.map Prod.snd, ⟨ws, hws, rfl⟩, this ▸ List.mem_map_of_mem _ hpr⟩

theorem sanitize_nodup_append (cfg : Config) {p : WebsocketPool κ}
    (ts : List (WebsocketTopic κ)) (hwf : PoolWF cfg p) :
    (poolKeys p ++
      ((dedup ts).filter (fun t => decide (t ∉ allTopicValues p))).map
        (fun t => t.key)).Nodup := by
  refine List.nodup_append.mpr ⟨hwf.2.1, ?_, ?_⟩
  · exact nodup_map_key ((dedup_nodup ts).filter _)
  · intro a ha hb
    rcases List.mem_map.mp hb with ⟨t, ht, rfl⟩
    have hna := List.of_mem_filter ht
    have : t ∉ allTopicValues p := of_decide_eq_true hna
    exact this ((mem_allValues_iff hwf.1 t).mpr ha)

theorem spare_eq {cap : Nat} {ws : Websocket κ} (hconn : ws.connected = true)
    (hle : ws.topics.length ≤ cap) :
    spare cap ws = cap - ws.topics.length := by
  by_cases hlt : ws.topics.length < cap
  · simp [spare, hconn, hlt]
  · have : ws.topics.length = cap := by omega
    simp [spare, hlt, this]

theorem spare_sum_connected (cap : Nat) :
    ∀ (wss : List (Websocket κ)), (∀ ws ∈ wss, ws.connected = true) →
      (∀ ws ∈ wss, ws.topics.length ≤ cap) →
        (wss.map (spare cap)).sum + (wss.map (fun ws => ws.topics.length)).sum =
          wss.length * cap
  | [], _, _ => by simp
  | ws :: wss, hconn, hle => by
    have hws := spare_eq (hconn ws (List.mem_cons_self _ _)) (hle ws (List.mem_cons_self _ _))
    have ih := spare_sum_connected cap wss
      (fun w hw => hconn w (List.mem_cons_of_mem _ hw))
      (fun w hw => hle w (List.mem_cons_of_mem _ hw))
    have hwsle := hle ws (List.mem_cons_self _ _)
    simp only [List.map_cons, List.sum_cons, List.length_cons, hws, Nat.succ_mul]
    omega

theorem poolAddTopics_wf (cfg : Config) (p : WebsocketPool κ)
    (ts : List (WebsocketTopic κ)) (hwf : PoolWF cfg p) :
    PoolWF cfg (poolAddTopics cfg p ts).1 := by
  simp only [poolAddTopics]
  by_cases h0 : (dedup ts).isEmpty
  · rw [if_pos h0]; exact hwf
  · rw [if_neg h0]
    by_cases h1 : ((dedup ts).filter (fun t => decide (t ∉ allTopicValues p))).isEmpty
    · rw [if_pos h1]; exact hwf
    · rw [if_neg h1]
      set ts1 := (dedup ts).filter (fun t => decide (t ∉ allTopicValues p)) with hts1
      have hnd : (poolKeys p ++ ts1.map (fun t => t.key)).Nodup :=
        sanitize_nodup_append cfg ts hwf
      have hfill := fillExisting_spec cfg.wsTopicsLimit p.websockets ts1 hnd
      set f := fillExisting cfg.wsTopicsLimit p.websockets ts1 with hf
      set n1 := min ((p.websockets.map (spare cfg.wsTopicsLimit)).sum) ts1.length with hn1
      have hfkeyed : ∀ ws ∈ f.1, keyedWs ws :=
        fillExisting_keyed cfg.wsTopicsLimit p.websockets ts1 hwf.1
      have hflen : ∀ ws ∈ f.1, ws.topics.length ≤ cfg.wsTopicsLimit :=
        fillExisting_len_le cfg.wsTopicsLimit p.websockets ts1 hwf.2.2.1
      have hflength : f.1.length = p.websockets.length :=
        fillExisting_length cfg.wsTopicsLimit p.websockets ts1
      have hmidnodup : ((f.1.map wsKeys).flatten ++
          (ts1.map (fun t => t.key)).drop n1).Nodup := by
        have hperm2 : ((f.1.map wsKeys).flatten ++ (ts1.map (fun t => t.key)).drop n1).Perm
            ((poolKeys p ++ (ts1.take n1).map (fun t => t.key)) ++
              (ts1.map (fun t => t.key)).drop n1) :=
          hfill.2.append_right _
        refine hperm2.symm.nodup ?_
        rw [List.map_take, List.append_assoc, List.take_append_drop]
        exact hnd
      by_cases h2 : f.2.isEmpty
      · rw [if_pos h2]
        refine ⟨hfkeyed, ?_, hflen, ?_⟩
        · refine (hfill.2.symm.nodup ?_)
          refine List.Nodup.sublist ?_ hnd
          have hsub : (((ts1.take n1).map (fun t => t.key)) : List κ).Sublist
              (ts1.map (fun t => t.key)) := by
            rw [List.map_take]
            exact List.take_sublist _ _
          exact hsub.append_left _
        · simpa [hflength] using hwf.2.2.2
      · rw [if_neg h2]
        have hne : f.2 ≠ [] := fun hx => h2 (List.isEmpty_iff.mpr hx)
        have hfsnd : f.2 = ts1.drop n1 := hfill.1
        have hnodup2 : (poolKeys { p with websockets := f.1 } ++
            f.2.map (fun t => t.key)).Nodup := by
          rw [poolKeys_websockets]
          simpa [hfsnd, List.map_drop] using hmidnodup
        have hadd := addNewAux_spec cfg (cfg.maxWebsockets - f.1.length)
          { p with websockets := f.1 } f.2 f.1.length hne hnodup2
        refine ⟨?_, ?_, ?_, ?_⟩
        · exact hadd.2.2.2.1 hfkeyed
        · rw [hadd.2.1]
          refine List.Nodup.sublist ?_ hnodup2
          have hsub : (((f.2.take (min ((cfg.maxWebsockets - f.1.length) *
              cfg.wsTopicsLimit) f.2.length)).map (fun t => t.key)) : List κ).Sublist
              (f.2.map (fun t => t.key)) := by
            rw [List.map_take]
            exact List.take_sublist _ _
          exact hsub.append_left _
        · exact hadd.2.2.2.2 hflen
        · rw [hadd.2.2.1]
          simp only [poolKeys_websockets] at *
          by_cases hb : (cfg.maxWebsockets - f.1.length) * cfg.wsTopicsLimit < f.2.length
          · rw [if_pos hb]
            have : f.1.length ≤ cfg.maxWebsockets := by
              rw [hflength]; exact hwf.2.2.2
            omega
          · rw [if_neg hb]
            by_cases hcap0 : cfg.wsTopicsLimit = 0
            · exfalso
              apply hb
              rw [hcap0, Nat.mul_zero]
              exact List.length_pos.mpr hne
            · have hcappos : 0 < cfg.wsTopicsLimit := Nat.pos_of_ne_zero hcap0
              have hceil : (f.2.length + cfg.wsTopicsLimit - 1) / cfg.wsTopicsLimit ≤
                  cfg.maxWebsockets - f.1.length := by
                have hx : f.2.length + cfg.wsTopicsLimit - 1 <
                    ((cfg.maxWebsockets - f.1.length) + 1) * cfg.wsTopicsLimit := by
                  rw [Nat.succ_mul]
                  omega
                have := (Nat.div_lt_iff_lt_mul hcappos).mpr hx
                omega
              have : f.1.length ≤ cfg.maxWebsockets := by
                rw [hflength]; exact hwf.2.2.2
              omega

theorem poolAddTopics_success (cfg : Config) (p : WebsocketPool κ)
    (ts : List (WebsocketTopic κ)) (hwf : PoolWF cfg p)
    (hconn : ∀ ws ∈ p.websockets, ws.connected = true)
    (hroom : poolTotalTopics p +
        ((dedup ts).filter (fun t => decide (t ∉ allTopicValues p))).length ≤
      cfg.maxWebsockets * cfg.wsTopicsLimit) :
    (poolAddTopics cfg p ts).2 = false ∧
      (poolKeys (poolAddTopics cfg p ts).1).Perm
        (poolKeys p ++
          ((dedup ts).filter (fun t => decide (t ∉ allTopicValues p))).map
            (fun t => t.key)) ∧
      (((dedup ts).filter (fun t => decide (t ∉ allTopicValues p))).length ≤
          (p.websockets.map (spare cfg.wsTopicsLimit)).sum →
        (poolAddTopics cfg p ts).1.websockets.length = p.websockets.length) := by
  simp only [poolAddTopics]
  by_cases h0 : (dedup ts).isEmpty
  · rw [if_pos h0]
    have h0' : dedup ts = [] := List.isEmpty_iff.mp h0
    refine ⟨rfl, ?_, fun _ => rfl⟩
    rw [h0']
    simp only [List.filter_nil, List.map_nil, List.append_nil]
    exact List.Perm.refl _
  · rw [if_neg h0]
    by_cases h1 : ((dedup ts).filter (fun t => decide (t ∉ allTopicValues p))).isEmpty
    · rw [if_pos h1]
      have h1' := List.isEmpty_iff.mp h1
      refine ⟨rfl, ?_, fun _ => rfl⟩
      rw [h1']
      simp only [List.map_nil, List.append_nil]
      exact List.Perm.refl _
    · rw [if_neg h1]
      set ts1 := (dedup ts).filter (fun t => decide (t ∉ allTopicValues p)) with hts1
      have hnd : (poolKeys p ++ ts1.map (fun t => t.key)).Nodup :=
        sanitize_nodup_append cfg ts hwf
      have hfill := fillExisting_spec cfg.wsTopicsLimit p.websockets ts1 hnd
      set f := fillExisting cfg.wsTopicsLimit p.websockets ts1 with hf
      set n1 := min ((p.websockets.map (spare cfg.wsTopicsLimit)).sum) ts1.length with hn1
      have hflength : f.1.length = p.websockets.length :=
        fillExisting_length cfg.wsTopicsLimit p.websockets ts1
      have hssum := spare_sum_connected cfg.wsTopicsLimit p.websockets hconn hwf.2.2.1
      have htotal : poolTotalTopics p = (p.websockets.map (fun ws => ws.topics.length)).sum :=
        rfl
      by_cases h2 : f.2.isEmpty
      · rw [if_pos h2]
        have h2' : ts1.drop n1 = [] := by rw [← hfill.1]; exact List.isEmpty_iff.mp h2
        have hn1len : n1 = ts1.length := by
          have := List.drop_eq_nil_iff.mp h2'
          omega
        refine ⟨rfl, ?_, fun _ => hflength⟩
        have := hfill.2
        rw [hn1len, List.take_length] at this
        exact this
      · rw [if_neg h2]
        have hne : f.2 ≠ [] := fun hx => h2 (List.isEmpty_iff.mpr hx)
        have hfsnd : f.2 = ts1.drop n1 := hfill.1
        have hn1lt : n1 < ts1.length := by
          rcases Nat.lt_or_ge n1 ts1.length with hlt | hge
          · exact hlt
          · exact absurd (by rw [hfsnd]; exact List.drop_eq_nil_of_le hge) hne
        have hn1S : n1 = (p.websockets.map (spare cfg.wsTopicsLimit)).sum := by
          omega
        have hf2len : f.2.length = ts1.length - n1 := by
          rw [hfsnd, List.length_drop]
        have hmidnodup : ((f.1.map wsKeys).flatten ++
            (ts1.map (fun t => t.key)).drop n1).Nodup := by
          have hperm2 : ((f.1.map wsKeys).flatten ++ (ts1.map (fun t => t.key)).drop n1).Perm
              ((poolKeys p ++ (ts1.take n1).map (fun t => t.key)) ++
                (ts1.map (fun t => t.key)).drop n1) :=
            hfill.2.append_right _
          refine hperm2.symm.nodup ?_
          rw [List.map_take, List.append_assoc, List.take_append_drop]
          exact hnd
        have hnodup2 : (poolKeys { p with websockets := f.1 } ++
            f.2.map (fun t => t.key)).Nodup := by
          rw [poolKeys_websockets]
          simpa [hfsnd, List.map_drop] using hmidnodup
        have hadd := addNewAux_spec cfg (cfg.maxWebsockets - f.1.length)
          { p with websockets := f.1 } f.2 f.1.length hne hnodup2
        have hlenmax : p.websockets.length ≤ cfg.maxWebsockets := hwf.2.2.2
        have hmul1 : (cfg.maxWebsockets - f.1.length) * cfg.wsTopicsLimit =
            cfg.maxWebsockets * cfg.wsTopicsLimit -
              f.1.length * cfg.wsTopicsLimit := Nat.sub_mul _ _ _
        have hmul2 : f.1.length * cfg.wsTopicsLimit ≤
            cfg.maxWebsockets * cfg.wsTopicsLimit := by
          exact Nat.mul_le_mul_right _ (by omega)
        have hfuelroom : ¬ ((cfg.maxWebsockets - f.1.length) * cfg.wsTopicsLimit <
            f.2.length) := by
          rw [hmul1, hflength]
          omega
        have hnoraise : (addNewAux cfg (cfg.maxWebsockets - f.1.length)
            { p with websockets := f.1 } f.2 f.1.length).2 = false := by
          rcases Bool.eq_false_or_eq_true (addNewAux cfg (cfg.maxWebsockets - f.1.length)
            { p with websockets := f.1 } f.2 f.1.length).2 with htr | hfa
          · exact absurd (hadd.1.mp htr) hfuelroom
          · exact hfa
        refine ⟨hnoraise, ?_, ?_⟩
        · rw [hadd.2.1]
          have hn2 : min ((cfg.maxWebsockets - f.1.length) * cfg.wsTopicsLimit)
              f.2.length = f.2.length := by omega
          rw [hn2, List.take_length, poolKeys_websockets]
          refine (hfill.2.append_right _).trans ?_
          rw [List.append_assoc, hfsnd, List.map_drop, List.map_take,
            List.take_append_drop]
          exact List.Perm.refl _
        · intro hsp
          exfalso
          apply hne
          rw [hfsnd]
          refine List.drop_eq_nil_of_le ?_
          omega

/-! ### Websocket.remove_topics and the pool removal loop -/

theorem wsRemoveTopics_topics (ws : Websocket κ) (ks : List κ) :
    (ws.removeTopics ks).1.topics =
      ws.topics.filter (fun pr => decide (pr.1 ∉ ks)) := by
  simp only [Websocket.removeTopics]
  by_cases he : (ks.filter (fun k => decide (k ∈ ws.topics.map Prod.fst))).isEmpty
  · rw [if_pos he]
    have he' := List.isEmpty_iff.mp he
    have hnone : ∀ k ∈ ks, k ∉ ws.topics.map Prod.fst := by
      intro k hk hmem
      have := List.filter_eq_nil_iff.mp he' k hk
      simp [hmem] at this
    have : ∀ pr ∈ ws.topics, pr.1 ∉ ks := by
      intro pr hpr hk
      exact hnone pr.1 hk (List.mem_map_of_mem _ hpr)
    exact (List.filter_eq_self.mpr (by
      intro pr hpr
      simpa using this pr hpr)).symm
  · rw [if_neg he]
    refine List.filter_congr ?_
    intro pr hpr
    simp only [decide_eq_decide, List.mem_filter]
    constructor
    · intro hnot hks
      exact hnot ⟨hks, by simp [List.mem_map_of_mem _ hpr]⟩
    · intro hnot hks
      exact hnot hks.1

theorem wsRemoveTopics_connected (ws : Websocket κ) (ks : List κ) :
    (ws.removeTopics ks).1.connected = ws.connected := by
  simp only [Websocket.removeTopics]
  by_cases he : (ks.filter (fun k => decide (k ∈ ws.topics.map Prod.fst))).isEmpty
  · rw [if_pos he]
  · rw [if_neg he]

theorem wsRemoveTopics_snd_mem (ws : Websocket κ) (ks : List κ) (k : κ) :
    k ∈ (ws.removeTopics ks).2 ↔
      (k ∈ ks ∧ k ∉ ws.topics.map Prod.fst) := by
  simp only [Websocket.removeTopics]
  by_cases he : (ks.filter (fun k => decide (k ∈ ws.topics.map Prod.fst))).isEmpty
  · rw [if_pos he]
    have he' := List.isEmpty_iff.mp he
    constructor
    · intro hk
      refine ⟨hk, ?_⟩
      intro hmem
      have := List.filter_eq_nil_iff.mp he' k hk
      simp [hmem] at this
    · exact fun h => h.1
  · rw [if_neg he]
    constructor
    · intro hk
      rcases List.mem_filter.mp hk with ⟨hks, hdec⟩
      have hnotex : k ∉ ks.filter (fun k => decide (k ∈ ws.topics.map Prod.fst)) :=
        of_decide_eq_true hdec
      refine ⟨hks, fun hmem => hnotex (List.mem_filter.mpr ⟨hks, by simpa using hmem⟩)⟩
    · rintro ⟨hks, hnm⟩
      refine List.mem_filter.mpr ⟨hks, ?_⟩
      refine decide_eq_true ?_
      intro hmem
      rcases List.mem_filter.mp hmem with ⟨_, hdec2⟩
      exact hnm (of_decide_eq_true hdec2)

theorem removeAll_length : ∀ (wss : List (Websocket κ)) (ks : List κ),
    (removeAll wss ks).1.length = wss.length
  | [], _ => rfl
  | ws :: wss, ks => by
    simp only [removeAll, List.length_cons, removeAll_length wss]

theorem removeAll_mem_shape : ∀ (wss : List (Websocket κ)) (ks : List κ),
    ∀ w ∈ (removeAll wss ks).1, ∃ x ∈ wss, ∃ ks', w = (x.removeTopics ks').1
  | [], _, w, hw => absurd hw (List.not_mem_nil _)
  | ws :: wss, ks, w, hw => by
    simp only [removeAll, List.mem_cons] at hw
    rcases hw with rfl | hm
    · exact ⟨ws, List.mem_cons_self _ _, ks, rfl⟩
    · rcases removeAll_mem_shape wss (ws.removeTopics ks).2 w hm with ⟨x, hx, ks', hk⟩
      exact ⟨x, List.mem_cons_of_mem _ hx, ks', hk⟩

theorem removeAll_connected (wss : List (Websocket κ)) (ks : List κ)
    (hconn : ∀ ws ∈ wss, ws.connected = true) :
    ∀ w ∈ (removeAll wss ks).1, w.connected = true := by
  intro w hw
  rcases removeAll_mem_shape wss ks w hw with ⟨x, hx, ks', rfl⟩
  rw [wsRemoveTopics_connected]
  exact hconn x hx

theorem wsRemoveTopics_keyed {ws : Websocket κ} {ks : List κ} (h : keyedWs ws) :
    keyedWs (ws.removeTopics ks).1 := by
  intro pr hpr
  rw [wsRemoveTopics_topics] at hpr
  exact h pr (List.mem_of_mem_filter hpr)

theorem wsRemoveTopics_len_le {cap : Nat} {ws : Websocket κ} {ks : List κ}
    (h : ws.topics.length ≤ cap) :
    (ws.removeTopics ks).1.topics.length ≤ cap := by
  rw [wsRemoveTopics_topics]
  exact le_trans (List.length_filter_le _ _) h

theorem removeAll_keyed (wss : List (Websocket κ)) (ks : List κ)
    (h : ∀ ws ∈ wss, keyedWs ws) :
    ∀ w ∈ (removeAll wss ks).1, keyedWs w := by
  intro w hw
  rcases removeAll_mem_shape wss ks w hw with ⟨x, hx, ks', rfl⟩
  exact wsRemoveTopics_keyed (h x hx)

theorem removeAll_len_le {cap : Nat} (wss : List (Websocket κ)) (ks : List κ)
    (h : ∀ ws ∈ wss, ws.topics.length ≤ cap) :
    ∀ w ∈ (removeAll wss ks).1, w.topics.length ≤ cap := by
  intro w hw
  rcases removeAll_mem_shape wss ks w hw with ⟨x, hx, ks', rfl⟩
  exact wsRemoveTopics_len_le (h x hx)

theorem map_fst_filter_key (topics : List (κ × WebsocketTopic κ)) (q : κ → Bool) :
    (topics.filter (fun pr => q pr.1)).map Prod.fst =
      (topics.map Prod.fst).filter q := by
  induction topics with
  | nil => rfl
  | cons pr rest ih =>
    by_cases hq : q pr.1
    · simp [List.filter_cons, hq, ih]
    · simp [List.filter_cons, hq, ih]

theorem removeAll_keys : ∀ (wss : List (Websocket κ)) (ks : List κ),
    ((wss.map wsKeys).flatten).Nodup →
      (((removeAll wss ks).1.map wsKeys).flatten) =
        ((wss.map wsKeys).flatten).filter (fun k => decide (k ∉ ks))
  | [], _, _ => rfl
  | ws :: wss, ks, hnd => by
    have hnd' : ((wss.map wsKeys).flatten).Nodup := by
      refine List.Nodup.sublist ?_ hnd
      simp only [List.map_cons, List.flatten_cons]
      exact List.sublist_append_right _ _
    have hdisj : ∀ k ∈ (wss.map wsKeys).flatten, k ∉ wsKeys ws := by
      intro k hk hkw
      have := (List.nodup_append.mp (by
        simpa [List.map_cons, List.flatten_cons] using hnd)).2.2
      exact this hkw hk
    have ih := removeAll_keys wss (ws.removeTopics ks).2 hnd'
    simp only [removeAll, List.map_cons, List.flatten_cons, List.filter_append]
    have h1 : wsKeys (ws.removeTopics ks).1 =
        (wsKeys ws).filter (fun k => decide (k ∉ ks)) := by
      rw [wsKeys, wsRemoveTopics_topics]
      exact map_fst_filter_key ws.topics (fun k => decide (k ∉ ks))
    have h2 : ((wss.map wsKeys).flatten).filter
          (fun k => decide (k ∉ (ws.removeTopics ks).2)) =
        ((wss.map wsKeys).flatten).filter (fun k => decide (k ∉ ks)) := by
      refine List.filter_congr ?_
      intro k hk
      simp only [decide_eq_decide]
      rw [wsRemoveTopics_snd_mem]
      have hnw : k ∉ ws.topics.map Prod.fst := hdisj k hk
      constructor
      · intro hnot hks
        exact hnot ⟨hks, hnw⟩
      · intro hnot h2
        exact hnot h2.1
    rw [h1, ih, h2]

/-! ### The eviction loop of pool consolidation -/

theorem popFewest_eq_none : ∀ {l : List (Websocket κ)}, popFewest l = none → l = []
  | [], _ => rfl
  | x :: xs, h => by
    simp only [popFewest] at h
    cases hx : popFewest xs with
    | none =>
      rw [hx] at h
      dsimp only at h
      exact absurd h (by simp)
    | some q =>
      rcases q with ⟨m, rest'⟩
      rw [hx] at h
      dsimp only at h
      by_cases hle : x.topics.length ≤ m.topics.length
      · rw [if_pos hle] at h; exact absurd h (by simp)
      · rw [if_neg hle] at h; exact absurd h (by simp)

theorem popFewest_spec : ∀ (l : List (Websocket κ)) (w : Websocket κ)
    (rest : List (Websocket κ)), popFewest l = some (w, rest) →
      l.Perm (w :: rest) ∧ rest.Sublist l
  | [], _, _, h => by simp [popFewest] at h
  | x :: xs, w, rest, h => by
    simp only [popFewest] at h
    cases hx : popFewest xs with
    | none =>
      have hnil : xs = [] := popFewest_eq_none hx
      rw [hx] at h
      dsimp only at h
      simp only [Option.some.injEq, Prod.mk.injEq] at h
      subst hnil
      rcases h with ⟨rfl, rfl⟩
      exact ⟨List.Perm.refl _, by simp⟩
    | some q =>
      rcases q with ⟨m, rest'⟩
      rw [hx] at h
      dsimp only at h
      by_cases hle : x.topics.length ≤ m.topics.length
      · rw [if_pos hle] at h
        simp only [Option.some.injEq, Prod.mk.injEq] at h
        rcases h with ⟨rfl, rfl⟩
        exact ⟨List.Perm.refl _, (List.sublist_cons_self _ _)⟩
      · rw [if_neg hle] at h
        simp only [Option.some.injEq, Prod.mk.injEq] at h
        rcases h with ⟨rfl, rfl⟩
        have ih := popFewest_spec xs m rest' hx
        constructor
        · exact (ih.1.cons x).trans (List.Perm.swap _ _ _)
        · exact ih.2.cons₂ x
  termination_by l => l.length

theorem evictAux_spec : ∀ (fuel : Nat) (l : List (Websocket κ)) (required : Nat),
    l.length ≤ fuel →
      ((evictAux fuel l required).1.Sublist l) ∧
        l.Perm ((evictAux fuel l required).2 ++ (evictAux fuel l required).1) ∧
        (required < l.length → (evictAux fuel l required).1.length = required) ∧
        (l.length ≤ required →
          (evictAux fuel l required).1 = l ∧ (evictAux fuel l required).2 = [])
  | 0, l, required, hfuel => by
    have : l = [] := List.length_eq_zero.mp (by omega)
    subst this
    simp only [evictAux]
    refine ⟨?_, ?_, ?_, ?_⟩
    · exact List.Sublist.refl _
    · exact List.Perm.refl _
    · intro hcon
      simp at hcon
    · exact fun _ => ⟨trivial, trivial⟩

  | fuel + 1, l, required, hfuel => by
    simp only [evictAux]
    by_cases hreq : required < l.length
    · rw [if_pos hreq]
      cases hx : popFewest l with
      | none =>
        exfalso
        have : l = [] := popFewest_eq_none hx
        subst this
        simp at hreq
      | some q =>
        rcases q with ⟨w, rest⟩
        have hpop := popFewest_spec l w rest hx
        have hlen : l.length = rest.length + 1 := by
          have := hpop.1.length_eq
          simpa using this
        have ih := evictAux_spec fuel rest required (by omega)
        refine ⟨?_, ?_, ?_, ?_⟩
        · exact ih.1.trans hpop.2
        · refine hpop.1.trans ?_
          refine (ih.2.1.cons w).trans ?_
          simp only [List.cons_append]
          exact List.Perm.refl _
        · intro _
          by_cases hr2 : required < rest.length
          · exact ih.2.2.1 hr2
          · have hreq2 : required = rest.length := by omega
            rw [(ih.2.2.2 (by omega)).1]
            omega
        · intro hle
          omega
    · rw [if_neg hreq]
      exact ⟨List.Sublist.refl _, List.Perm.refl _, by omega, fun _ => ⟨rfl, rfl⟩⟩

/-! ### Pool remove_topics and consolidation: well-formedness -/

theorem optimizePool_wf (cfg : Config) (p : WebsocketPool κ) (hwf : PoolWF cfg p) :
    PoolWF cfg (optimizePool cfg p) := by
  simp only [optimizePool]
  by_cases h2 : p.websockets.length < 2
  · rw [if_pos h2]; exact hwf
  · rw [if_neg h2]
    by_cases hreq : ((p.websockets.map (fun ws => ws.topics.length)).sum +
        cfg.wsTopicsLimit - 1) / cfg.wsTopicsLimit < p.websockets.length
    · rw [if_pos hreq]
      have hspec := evictAux_spec p.websockets.length p.websockets
        (((p.websockets.map (fun ws => ws.topics.length)).sum +
          cfg.wsTopicsLimit - 1) / cfg.wsTopicsLimit) (le_refl _)
      set e := evictAux p.websockets.length p.websockets
        (((p.websockets.map (fun ws => ws.topics.length)).sum +
          cfg.wsTopicsLimit - 1) / cfg.wsTopicsLimit) with he
      have hsubmem : ∀ w ∈ e.1, w ∈ p.websockets := fun w hw => hspec.1.subset hw
      have hp1wf : PoolWF cfg
          { p with websockets := e.1,
                   connectionCount := p.connectionCount - e.2.length } := by
        refine ⟨?_, ?_, ?_, ?_⟩
        · exact fun w hw => hwf.1 w (hsubmem w hw)
        · have hsub : ((e.1.map wsKeys).flatten).Sublist
              ((p.websockets.map wsKeys).flatten) :=
            flatten_sublist_of_sublist (hspec.1.map wsKeys)
          exact hsub.nodup hwf.2.1
        · exact fun w hw => hwf.2.2.1 w (hsubmem w hw)
        · exact le_trans hspec.1.length_le hwf.2.2.2
      by_cases hrec : ((e.2.map (fun ws => ws.topics.map Prod.snd)).flatten).isEmpty
      · rw [if_pos hrec]
        exact hp1wf
      · rw [if_neg hrec]
        exact poolAddTopics_wf cfg _ _ hp1wf
    · rw [if_neg hreq]
      exact hwf

theorem poolRemoveTopics_wf (cfg : Config) (p : WebsocketPool κ) (ks : List κ)
    (hwf : PoolWF cfg p) : PoolWF cfg (poolRemoveTopics cfg p ks) := by
  simp only [poolRemoveTopics]
  by_cases h0 : (dedupKeys ks).isEmpty
  · rw [if_pos h0]; exact hwf
  · rw [if_neg h0]
    refine optimizePool_wf cfg _ ?_
    refine ⟨?_, ?_, ?_, ?_⟩
    · exact removeAll_keyed p.websockets (dedupKeys ks) hwf.1
    · have := removeAll_keys p.websockets (dedupKeys ks) hwf.2.1
      rw [poolKeys_websockets]
      rw [this]
      exact (List.filter_sublist _).nodup hwf.2.1
    · exact removeAll_len_le p.websockets (dedupKeys ks) hwf.2.2.1
    · rw [removeAll_length]
      exact hwf.2.2.2

/-! ### Event sequences preserve well-formedness -/

theorem modifyAt_nil (i : Nat) (f : Websocket κ → Websocket κ) :
    modifyAt i f [] = [] := by
  cases i <;> rfl

theorem modifyAt_map_eq {α : Type _} {f : Websocket κ → Websocket κ}
    {g : Websocket κ → α} (hg : ∀ ws, g (f ws) = g ws) :
    ∀ (i : Nat) (l : List (Websocket κ)), (modifyAt i f l).map g = l.map g := by
  intro i l
  induction l generalizing i with
  | nil => rw [modifyAt_nil]
  | cons w ws ih =>
    cases i with
    | zero => simp [modifyAt, hg]
    | succ j => simp [modifyAt, ih]

theorem modifyAt_length {f : Websocket κ → Websocket κ} :
    ∀ (i : Nat) (l : List (Websocket κ)), (modifyAt i f l).length = l.length := by
  intro i l
  induction l generalizing i with
  | nil => rw [modifyAt_nil]
  | cons w ws ih =>
    cases i with
    | zero => simp [modifyAt]
    | succ j => simp [modifyAt, ih]

theorem mem_modifyAt {f : Websocket κ → Websocket κ} :
    ∀ {i : Nat} {l : List (Websocket κ)} {w : Websocket κ},
      w ∈ modifyAt i f l → w ∈ l ∨ ∃ x ∈ l, w = f x := by
  intro i l
  induction l generalizing i with
  | nil =>
    intro w hw
    rw [modifyAt_nil] at hw
    exact absurd hw (List.not_mem_nil _)
  | cons x xs ih =>
    intro w hw
    cases i with
    | zero =>
      rcases List.mem_cons.mp hw with rfl | hm
      · exact Or.inr ⟨x, List.mem_cons_self _ _, rfl⟩
      · exact Or.inl (List.mem_cons_of_mem _ hm)
    | succ j =>
      rcases List.mem_cons.mp hw with rfl | hm
      · exact Or.inl (List.mem_cons_self _ _)
      · rcases ih hm with hin | ⟨y, hy, rfl⟩
        · exact Or.inl (List.mem_cons_of_mem _ hin)
        · exact Or.inr ⟨y, List.mem_cons_of_mem _ hy, rfl⟩

theorem setConnected_wf (cfg : Config) (p : WebsocketPool κ) (i : Nat) (b : Bool)
    (hwf : PoolWF cfg p) :
    PoolWF cfg
      { p with websockets := modifyAt i (fun ws => { ws with connected := b }) p.websockets } := by
  have hg : ∀ ws : Websocket κ,
      wsKeys ({ ws with connected := b } : Websocket κ) = wsKeys ws := fun _ => rfl
  refine ⟨?_, ?_, ?_, ?_⟩
  · intro w hw
    rcases mem_modifyAt hw with hin | ⟨x, hx, rfl⟩
    · exact hwf.1 w hin
    · exact hwf.1 x hx
  · rw [poolKeys_websockets]
    simp only [modifyAt_map_eq hg]
    exact hwf.2.1
  · intro w hw
    rcases mem_modifyAt hw with hin | ⟨x, hx, rfl⟩
    · exact hwf.2.2.1 w hin
    · exact hwf.2.2.1 x hx
  · simpa [modifyAt_length] using hwf.2.2.2

theorem applyOp_wf (cfg : Config) (p : WebsocketPool κ) (op : PoolOp κ)
    (hwf : PoolWF cfg p) : PoolWF cfg (applyOp cfg p op) := by
  cases op with
  | add ts => exact poolAddTopics_wf cfg p ts hwf
  | remove ks => exact poolRemoveTopics_wf cfg p ks hwf
  | connect i => exact setConnected_wf cfg p i true hwf
  | disconnect i => exact setConnected_wf cfg p i false hwf

theorem applyOps_wf (cfg : Config) :
    ∀ (ops : List (PoolOp κ)) (p : WebsocketPool κ),
      PoolWF cfg p → PoolWF cfg (applyOps cfg ops p)
  | [], _, hwf => hwf
  | op :: ops, p, hwf =>
    applyOps_wf cfg ops (applyOp cfg p op) (applyOp_wf cfg p op hwf)

theorem emptyPool_wf (cfg : Config) : PoolWF cfg (emptyPool κ) := by
  refine ⟨?_, ?_, ?_, ?_⟩
  · intro ws hws
    exact absurd hws (List.not_mem_nil _)
  · exact List.nodup_nil
  · intro ws hws
    exact absurd hws (List.not_mem_nil _)
  · exact Nat.zero_le _

/-! ### Consolidation brings the pool to the minimal connection count -/

theorem poolTotal_eq_keys_length (wss : List (Websocket κ)) :
    (wss.map (fun ws => ws.topics.length)).sum = ((wss.map wsKeys).flatten).length := by
  rw [List.length_flatten, List.map_map]
  congr 1
  refine List.map_congr_left ?_
  intro ws _
  simp [wsKeys]

theorem values_map_key_eq_keys {ws : Websocket κ} (h : keyedWs ws) :
    (ws.topics.map Prod.snd).map (fun t => t.key) = wsKeys ws := by
  rw [List.map_map, wsKeys]
  refine List.map_congr_left ?_
  intro pr hpr
  exact h pr hpr

theorem ceil_mul_ge (cap t : Nat) (hcap : 0 < cap) :
    t ≤ ((t + cap - 1) / cap) * cap := by
  have hlt : t + cap - 1 < ((t + cap - 1) / cap + 1) * cap :=
    (Nat.div_lt_iff_lt_mul hcap).mp (Nat.lt_succ_self _)
  rw [Nat.succ_mul] at hlt
  omega

theorem optimizePool_spec (cfg : Config) (p : WebsocketPool κ) (hwf : PoolWF cfg p)
    (hconn : ∀ ws ∈ p.websockets, ws.connected = true)
    (hcap : 0 < cfg.wsTopicsLimit)
    (h2 : 2 ≤ p.websockets.length)
    (hreq : (poolTotalTopics p + cfg.wsTopicsLimit - 1) / cfg.wsTopicsLimit <
      p.websockets.length) :
    (optimizePool cfg p).websockets.length =
        (poolTotalTopics p + cfg.wsTopicsLimit - 1) / cfg.wsTopicsLimit ∧
      (poolKeys (optimizePool cfg p)).Perm (poolKeys p) := by
  have hnot2 : ¬ p.websockets.length < 2 := by omega
  simp only [optimizePool]
  rw [if_neg hnot2]
  have hreq' : ((p.websockets.map (fun ws => ws.topics.length)).sum +
      cfg.wsTopicsLimit - 1) / cfg.wsTopicsLimit < p.websockets.length := hreq
  rw [if_pos hreq']
  set req := ((p.websockets.map (fun ws => ws.topics.length)).sum +
      cfg.wsTopicsLimit - 1) / cfg.wsTopicsLimit with hreqdef
  have hespec := evictAux_spec p.websockets.length p.websockets req (le_refl _)
  set e := evictAux p.websockets.length p.websockets req with he
  have hsurvlen : e.1.length = req := hespec.2.2.1 hreq'
  have hsubmem : ∀ w ∈ e.1, w ∈ p.websockets := fun w hw => hespec.1.subset hw
  have hevmem : ∀ w ∈ e.2, w ∈ p.websockets := by
    intro w hw
    exact (hespec.2.1.mem_iff.mpr (List.mem_append.mpr (Or.inl hw)))
  have hkeysperm : (poolKeys p).Perm
      ((e.2.map wsKeys).flatten ++ (e.1.map wsKeys).flatten) := by
    rw [poolKeys_websockets]
    have := flatten_perm_of_perm (hespec.2.1.map wsKeys)
    rw [List.map_append, List.flatten_append] at this
    exact this
  have hrecmapkey : (((e.2.map (fun ws => ws.topics.map Prod.snd)).flatten).map
      (fun t => t.key)) = (e.2.map wsKeys).flatten := by
    rw [List.map_flatten, List.map_map]
    congr 1
    refine List.map_congr_left ?_
    intro ws hws
    exact values_map_key_eq_keys (hwf.1 ws (hevmem ws hws))
  have hnodupES : ((e.2.map wsKeys).flatten ++ (e.1.map wsKeys).flatten).Nodup :=
    hkeysperm.nodup hwf.2.1
  set p1 : WebsocketPool κ :=
    { p with websockets := e.1,
             connectionCount := p.connectionCount - e.2.length } with hp1
  have hp1keys : poolKeys p1 = (e.1.map wsKeys).flatten := rfl
  have hp1wf : PoolWF cfg p1 := by
    refine ⟨?_, ?_, ?_, ?_⟩
    · exact fun w hw => hwf.1 w (hsubmem w hw)
    · rw [hp1keys]
      exact (flatten_sublist_of_sublist (hespec.1.map wsKeys)).nodup hwf.2.1
    · exact fun w hw => hwf.2.2.1 w (hsubmem w hw)
    · exact le_trans hespec.1.length_le hwf.2.2.2
  have hp1conn : ∀ w ∈ p1.websockets, w.connected = true :=
    fun w hw => hconn w (hsubmem w hw)
  have htotal : poolTotalTopics p = ((e.2.map wsKeys).flatten).length +
      ((e.1.map wsKeys).flatten).length := by
    have h1 : poolTotalTopics p = (poolKeys p).length := by
      rw [poolTotalTopics, poolKeys_websockets, poolTotal_eq_keys_length]
    rw [h1, hkeysperm.length_eq, List.length_append]
  by_cases hrec : ((e.2.map (fun ws => ws.topics.map Prod.snd)).flatten).isEmpty
  · rw [if_pos hrec]
    have hrecnil := List.isEmpty_iff.mp hrec
    have hE : (e.2.map wsKeys).flatten = [] := by
      rw [← hrecmapkey, hrecnil]
      rfl
    constructor
    · rw [hsurvlen]
      exact hreqdef
    · rw [hp1keys]
      refine List.Perm.symm ?_
      refine hkeysperm.trans ?_
      rw [hE, List.nil_append]
  · rw [if_neg hrec]
    set recycled := (e.2.map (fun ws => ws.topics.map Prod.snd)).flatten with hrecdef
    have hrecnodup : recycled.Nodup := by
      refine List.Nodup.of_map (fun t => t.key) ?_
      rw [hrecmapkey]
      exact (List.nodup_append.mp hnodupES).1
    have hrecfresh : ∀ t ∈ recycled, t ∉ allTopicValues p1 := by
      intro t ht hmem
      have hkey : t.key ∈ (e.1.map wsKeys).flatten := by
        rw [← hp1keys]
        exact (mem_allValues_iff hp1wf.1 t).mp hmem
      have hkeyE : t.key ∈ (e.2.map wsKeys).flatten := by
        rw [← hrecmapkey]
        exact List.mem_map_of_mem _ ht
      exact (List.nodup_append.mp hnodupES).2.2 hkeyE hkey
    have hsanitize : (dedup recycled).filter
        (fun t => decide (t ∉ allTopicValues p1)) = recycled := by
      rw [dedup_eq_self hrecnodup]
      refine List.filter_eq_self.mpr ?_
      intro t ht
      exact decide_eq_true (hrecfresh t ht)
    have hreclen : recycled.length = ((e.2.map wsKeys).flatten).length := by
      rw [← hrecmapkey]
      exact (List.length_map _ _).symm
    have hp1total : poolTotalTopics p1 = ((e.1.map wsKeys).flatten).length := by
      rw [poolTotalTopics, hp1, poolTotal_eq_keys_length]
    have hrle : poolTotalTopics p ≤ req * cfg.wsTopicsLimit := by
      have := ceil_mul_ge cfg.wsTopicsLimit (poolTotalTopics p) hcap
      exact this
    have hreqmax : req ≤ cfg.maxWebsockets := by
      have := hwf.2.2.2
      omega
    have hroom : poolTotalTopics p1 +
        ((dedup recycled).filter (fun t => decide (t ∉ allTopicValues p1))).length ≤
        cfg.maxWebsockets * cfg.wsTopicsLimit := by
      rw [hsanitize, hp1total, hreclen]
      have h1 : req * cfg.wsTopicsLimit ≤ cfg.maxWebsockets * cfg.wsTopicsLimit :=
        Nat.mul_le_mul_right _ hreqmax
      omega
    have hsucc := poolAddTopics_success cfg p1 recycled hp1wf hp1conn hroom
    have hspare := spare_sum_connected cfg.wsTopicsLimit p1.websockets hp1conn hp1wf.2.2.1
    have hsp : ((dedup recycled).filter
        (fun t => decide (t ∉ allTopicValues p1))).length ≤
        (p1.websockets.map (spare cfg.wsTopicsLimit)).sum := by
      rw [hsanitize, hreclen]
      have hlen1 : p1.websockets.length = req := hsurvlen
      have h1 : (p1.websockets.map (fun ws => ws.topics.length)).sum =
          ((e.1.map wsKeys).flatten).length := by
        rw [hp1, poolTotal_eq_keys_length]
      rw [hlen1, h1] at hspare
      omega
    constructor
    · rw [hsucc.2.2 hsp, hsurvlen]
      exact hreqdef
    · refine hsucc.2.1.trans ?_
      rw [hsanitize, hrecmapkey, hp1keys]
      refine List.perm_append_comm.trans ?_
      exact hkeysperm.symm

theorem poolRemoveTopics_consolidates (cfg : Config) (p : WebsocketPool κ) (ks : List κ)
    (hwf : PoolWF cfg p)
    (hconn : ∀ ws ∈ p.websockets, ws.connected = true)
    (hcap : 0 < cfg.wsTopicsLimit)
    (hks : ks ≠ [])
    (h2 : 2 ≤ p.websockets.length)
    (hshrink : ((((poolKeys p).filter (fun k => decide (k ∉ ks))).length +
        cfg.wsTopicsLimit - 1) / cfg.wsTopicsLimit) < p.websockets.length) :
    (poolRemoveTopics cfg p ks).websockets.length =
        (((poolKeys p).filter (fun k => decide (k ∉ ks))).length +
          cfg.wsTopicsLimit - 1) / cfg.wsTopicsLimit ∧
      (poolKeys (poolRemoveTopics cfg p ks)).Perm
        ((poolKeys p).filter (fun k => decide (k ∉ ks))) := by
  have h0 : ¬ (dedupKeys ks).isEmpty = true := by
    cases ks with
    | nil => exact absurd rfl hks
    | cons a as =>
      intro hempty
      have ha : a ∈ dedupKeys (a :: as) := mem_dedupKeys.mpr (List.mem_cons_self _ _)
      rw [List.isEmpty_iff.mp hempty] at ha
      exact List.not_mem_nil a ha
  simp only [poolRemoveTopics]
  rw [if_neg h0]
  set wss2 := (removeAll p.websockets (dedupKeys ks)).1 with hwss2
  set p2 : WebsocketPool κ := { p with websockets := wss2 } with hp2
  have hfiltercongr : ((poolKeys p).filter (fun k => decide (k ∉ dedupKeys ks))) =
      ((poolKeys p).filter (fun k => decide (k ∉ ks))) := by
    refine List.filter_congr ?_
    intro k _
    simp only [decide_eq_decide]
    exact not_congr mem_dedupKeys
  have hkeys2 : poolKeys p2 = (poolKeys p).filter (fun k => decide (k ∉ ks)) := by
    have hshow : poolKeys p2 = ((wss2.map wsKeys).flatten) := rfl
    have h1 := removeAll_keys p.websockets (dedupKeys ks) hwf.2.1
    rw [hshow, hwss2, h1]
    exact hfiltercongr
  have hp2len : p2.websockets.length = p.websockets.length := by
    have : p2.websockets = wss2 := rfl
    rw [this, hwss2, removeAll_length]
  have hp2wf : PoolWF cfg p2 := by
    refine ⟨?_, ?_, ?_, ?_⟩
    · exact removeAll_keyed p.websockets (dedupKeys ks) hwf.1
    · rw [hkeys2]
      exact (List.filter_sublist _).nodup hwf.2.1
    · exact removeAll_len_le p.websockets (dedupKeys ks) hwf.2.2.1
    · rw [hp2len]
      exact hwf.2.2.2
  have hp2conn : ∀ w ∈ p2.websockets, w.connected = true :=
    removeAll_connected p.websockets (dedupKeys ks) hconn
  have hp2total : poolTotalTopics p2 =
      ((poolKeys p).filter (fun k => decide (k ∉ ks))).length := by
    have h1 : poolTotalTopics p2 = (poolKeys p2).length := by
      rw [poolTotalTopics, poolKeys_websockets, poolTotal_eq_keys_length]
    rw [h1, hkeys2]
  have hspec := optimizePool_spec cfg p2 hp2wf hp2conn hcap
    (by rw [hp2len]; exact h2) (by rw [hp2total, hp2len]; exact hshrink)
  constructor
  · rw [hspec.1, hp2total]
  · have := hspec.2
    rw [hkeys2] at this
    exact this

/-! ### Subscription sync at the connection level -/

theorem handleTopics_not_changed (env : Env) (ws : Websocket κ)
    (h : ws.topicsChanged = false) : ws.handleTopics env = (ws, []) := by
  simp [Websocket.handleTopics, h]

theorem handleTopics_eq_A (env : Env) (ws : Websocket κ)
    (h : ws.topicsChanged = true)
    (hrem : (ws.submitted.filter
      (fun t => decide (t ∉ ws.topics.map Prod.snd))).isEmpty = true)
    (hadd : ((ws.topics.map Prod.snd).filter
      (fun t => decide (t ∉ ws.submitted))).isEmpty = true) :
    ws.handleTopics env = ({ ws with topicsChanged := false }, []) := by
  unfold Websocket.handleTopics
  rw [h]
  rw [if_neg (by simp : ¬ (true = false))]
  dsimp only
  simp only [if_pos hrem]
  try dsimp only
  simp only [if_pos hadd]

theorem handleTopics_eq_B (env : Env) (ws : Websocket κ)
    (h : ws.topicsChanged = true)
    (hrem : (ws.submitted.filter
      (fun t => decide (t ∉ ws.topics.map Prod.snd))).isEmpty = true)
    (hadd : ¬ ((ws.topics.map Prod.snd).filter
      (fun t => decide (t ∉ ws.submitted))).isEmpty = true) :
    ws.handleTopics env =
      ({ ws with
          topicsChanged := false,
          submitted := ws.submitted ++
            (ws.topics.map Prod.snd).filter (fun t => decide (t ∉ ws.submitted)),
          nonceCtr := ws.nonceCtr + 1 },
        [send env ws.nonceCtr
          ⟨MsgType.LISTEN,
            ((ws.topics.map Prod.snd).filter
              (fun t => decide (t ∉ ws.submitted))).map (fun t => t.key),
            some env.token, none⟩]) := by
  unfold Websocket.handleTopics
  rw [h]
  rw [if_neg (by simp : ¬ (true = false))]
  dsimp only
  simp only [if_pos hrem]
  try dsimp only
  simp only [if_neg hadd]
  try dsimp only
  rfl

theorem handleTopics_eq_C (env : Env) (ws : Websocket κ)
    (h : ws.topicsChanged = true)
    (hrem : ¬ (ws.submitted.filter
      (fun t => decide (t ∉ ws.topics.map Prod.snd))).isEmpty = true)
    (hadd : ((ws.topics.map Prod.snd).filter (fun t => decide (t ∉
        ws.submitted.filter (fun t => decide (t ∉
          ws.submitted.filter (fun t => decide (t ∉ ws.topics.map Prod.snd))))))).isEmpty
      = true) :
    ws.handleTopics env =
      ({ ws with
          topicsChanged := false,
          submitted := ws.submitted.filter (fun t => decide (t ∉
            ws.submitted.filter (fun t => decide (t ∉ ws.topics.map Prod.snd)))),
          nonceCtr := ws.nonceCtr + 1 },
        [send env ws.nonceCtr
          ⟨MsgType.UNLISTEN,
            (ws.submitted.filter
              (fun t => decide (t ∉ ws.topics.map Prod.snd))).map (fun t => t.key),
            some env.token, none⟩]) := by
  unfold Websocket.handleTopics
  rw [h]
  rw [if_neg (by simp : ¬ (true = false))]
  dsimp only
  simp only [if_neg hrem]
  try dsimp only
  simp only [if_pos hadd]

theorem handleTopics_eq_D (env : Env) (ws : Websocket κ)
    (h : ws.topicsChanged = true)
    (hrem : ¬ (ws.submitted.filter
      (fun t => decide (t ∉ ws.topics.map Prod.snd))).isEmpty = true)
    (hadd : ¬ ((ws.topics.map Prod.snd).filter (fun t => decide (t ∉
        ws.submitted.filter (fun t => decide (t ∉
          ws.submitted.filter (fun t => decide (t ∉ ws.topics.map Prod.snd))))))).isEmpty
      = true) :
    ws.handleTopics env =
      ({ ws with
          topicsChanged := false,
          submitted := (ws.submitted.filter (fun t => decide (t ∉
              ws.submitted.filter (fun t => decide (t ∉ ws.topics.map Prod.snd))))) ++
            ((ws.topics.map Prod.snd).filter (fun t => decide (t ∉
              ws.submitted.filter (fun t => decide (t ∉
                ws.submitted.filter (fun t => decide (t ∉ ws.topics.map Prod.snd))))))),
          nonceCtr := ws.nonceCtr + 1 + 1 },
        [send env ws.nonceCtr
          ⟨MsgType.UNLISTEN,
            (ws.submitted.filter
              (fun t => decide (t ∉ ws.topics.map Prod.snd))).map (fun t => t.key),
            some env.token, none⟩,
         send env (ws.nonceCtr + 1)
          ⟨MsgType.LISTEN,
            ((ws.topics.map Prod.snd).filter (fun t => decide (t ∉
              ws.submitted.filter (fun t => decide (t ∉
                ws.submitted.filter (fun t => decide (t ∉ ws.topics.map Prod.snd))))))).map
              (fun t => t.key),
            some env.token, none⟩]) := by
  unfold Websocket.handleTopics
  rw [h]
  rw [if_neg (by simp : ¬ (true = false))]
  dsimp only
  simp only [if_neg hrem]
  try dsimp only
  simp only [if_neg hadd]
  try dsimp only
  rfl

theorem send_unlisten_eq (env : Env) (ctr : Nat) (tp : List κ) (tok : Option String) :
    send env ctr ⟨MsgType.UNLISTEN, tp, tok, none⟩ =
      ⟨MsgType.UNLISTEN, tp, tok, some (createNonce env ctr)⟩ := by
  simp [send]

theorem send_listen_eq (env : Env) (ctr : Nat) (tp : List κ) (tok : Option String) :
    send env ctr ⟨MsgType.LISTEN, tp, tok, none⟩ =
      ⟨MsgType.LISTEN, tp, tok, some (createNonce env ctr)⟩ := by
  simp [send]

theorem send_ping_eq (env : Env) (ctr : Nat) (tp : List κ) (tok n : Option String) :
    send env ctr ⟨MsgType.PING, tp, tok, n⟩ = ⟨MsgType.PING, tp, tok, n⟩ := by
  simp [send]

theorem handleTopics_topics (env : Env) (ws : Websocket κ) :
    (ws.handleTopics env).1.topics = ws.topics := by
  by_cases h : ws.topicsChanged = true
  · by_cases hrem : (ws.submitted.filter
        (fun t => decide (t ∉ ws.topics.map Prod.snd))).isEmpty = true
    · by_cases hadd : ((ws.topics.map Prod.snd).filter
          (fun t => decide (t ∉ ws.submitted))).isEmpty = true
      · rw [handleTopics_eq_A env ws h hrem hadd]
      · rw [handleTopics_eq_B env ws h hrem hadd]
    · by_cases hadd : ((ws.topics.map Prod.snd).filter (fun t => decide (t ∉
          ws.submitted.filter (fun t => decide (t ∉
            ws.submitted.filter (fun t => decide (t ∉ ws.topics.map Prod.snd))))))).isEmpty
        = true
      · rw [handleTopics_eq_C env ws h hrem hadd]
      · rw [handleTopics_eq_D env ws h hrem hadd]
  · rw [handleTopics_not_changed env ws (by simpa using h)]

theorem handleTopics_submitted_subset (env : Env) (ws : Websocket κ)
    (h : ws.topicsChanged = true) :
    ∀ t ∈ (ws.handleTopics env).1.submitted, t ∈ ws.topics.map Prod.snd := by
  intro t ht
  by_cases hrem : (ws.submitted.filter
      (fun t => decide (t ∉ ws.topics.map Prod.snd))).isEmpty = true
  · have hsubcur : ∀ a ∈ ws.submitted, a ∈ ws.topics.map Prod.snd := by
      intro a ha
      have := List.filter_eq_nil_iff.mp (List.isEmpty_iff.mp hrem) a ha
      simpa using this
    by_cases hadd : ((ws.topics.map Prod.snd).filter
        (fun t => decide (t ∉ ws.submitted))).isEmpty = true
    · rw [handleTopics_eq_A env ws h hrem hadd] at ht
      exact hsubcur t ht
    · rw [handleTopics_eq_B env ws h hrem hadd] at ht
      rcases List.mem_append.mp ht with hm | hm
      · exact hsubcur t hm
      · exact List.mem_of_mem_filter hm
  · have hstep : ∀ a, a ∈ ws.submitted.filter (fun t => decide (t ∉
        ws.submitted.filter (fun t => decide (t ∉ ws.topics.map Prod.snd)))) →
        a ∈ ws.topics.map Prod.snd := by
      intro a ha
      rcases List.mem_filter.mp ha with ⟨hsub, hdec⟩
      have hnotrem := of_decide_eq_true hdec
      by_contra hnc
      exact hnotrem (List.mem_filter.mpr ⟨hsub, decide_eq_true hnc⟩)
    by_cases hadd : ((ws.topics.map Prod.snd).filter (fun t => decide (t ∉
        ws.submitted.filter (fun t => decide (t ∉
          ws.submitted.filter (fun t => decide (t ∉ ws.topics.map Prod.snd))))))).isEmpty
      = true
    · rw [handleTopics_eq_C env ws h hrem hadd] at ht
      exact hstep t ht
    · rw [handleTopics_eq_D env ws h hrem hadd] at ht
      rcases List.mem_append.mp ht with hm | hm
      · exact hstep t hm
      · exact List.mem_of_mem_filter hm

theorem handleTopics_new_submitted (env : Env) (ws : Websocket κ) :
    ∀ t ∈ (ws.handleTopics env).1.submitted, t ∉ ws.submitted →
      ∃ m ∈ (ws.handleTopics env).2, m.type = MsgType.LISTEN ∧ t.key ∈ m.topics := by
  intro t ht hnew
  by_cases h : ws.topicsChanged = true
  · by_cases hrem : (ws.submitted.filter
        (fun t => decide (t ∉ ws.topics.map Prod.snd))).isEmpty = true
    · by_cases hadd : ((ws.topics.map Prod.snd).filter
          (fun t => decide (t ∉ ws.submitted))).isEmpty = true
      · rw [handleTopics_eq_A env ws h hrem hadd] at ht
        exact absurd ht hnew
      · rw [handleTopics_eq_B env ws h hrem hadd] at ht ⊢
        rcases List.mem_append.mp ht with hm | hm
        · exact absurd hm hnew
        · refine ⟨_, List.mem_singleton_self _, ?_, ?_⟩
          · rw [send_listen_eq]
          · rw [send_listen_eq]
            exact List.mem_map_of_mem _ hm
    · by_cases hadd : ((ws.topics.map Prod.snd).filter (fun t => decide (t ∉
          ws.submitted.filter (fun t => decide (t ∉
            ws.submitted.filter (fun t => decide (t ∉ ws.topics.map Prod.snd))))))).isEmpty
        = true
      · rw [handleTopics_eq_C env ws h hrem hadd] at ht
        exact absurd (List.mem_of_mem_filter ht) hnew
      · rw [handleTopics_eq_D env ws h hrem hadd] at ht ⊢
        rcases List.mem_append.mp ht with hm | hm
        · exact absurd (List.mem_of_mem_filter hm) hnew
        · refine ⟨send env (ws.nonceCtr + 1)
            ⟨MsgType.LISTEN, ((ws.topics.map Prod.snd).filter (fun t => decide (t ∉
              ws.submitted.filter (fun t => decide (t ∉
                ws.submitted.filter (fun t => decide (t ∉ ws.topics.map Prod.snd))))))).map
              (fun t => t.key), some env.token, none⟩, ?_, ?_, ?_⟩
          · exact List.mem_cons_of_mem _ (List.mem_singleton_self _)
          · rw [send_listen_eq]
          · rw [send_listen_eq]
            exact List.mem_map_of_mem _ hm
  · rw [handleTopics_not_changed env ws (by simpa using h)] at ht
    exact absurd ht hnew

theorem onReconnect_state (ws : Websocket κ) :
    (ws.onReconnect).submitted = [] ∧ (ws.onReconnect).topics = ws.topics ∧
      (ws.onReconnect).topicsChanged = true ∧ (ws.onReconnect).connected = false :=
  ⟨rfl, rfl, rfl, rfl⟩

theorem handleTopics_after_reconnect (env : Env) (ws : Websocket κ)
    (hkeyed : keyedWs ws) (hne : ws.topics ≠ []) :
    ((ws.onReconnect).handleTopics env).2 =
      [⟨MsgType.LISTEN, wsKeys ws, some env.token,
        some (createNonce env ws.nonceCtr)⟩] := by
  have h : (ws.onReconnect).topicsChanged = true := rfl
  have hrem : ((ws.onReconnect).submitted.filter
      (fun t => decide (t ∉ (ws.onReconnect).topics.map Prod.snd))).isEmpty = true := rfl
  have hfilterall : ((ws.onReconnect).topics.map Prod.snd).filter
      (fun t => decide (t ∉ (ws.onReconnect).submitted)) = ws.topics.map Prod.snd := by
    refine List.filter_eq_self.mpr ?_
    intro a _
    exact decide_eq_true (List.not_mem_nil a)
  have hadd : ¬ (((ws.onReconnect).topics.map Prod.snd).filter
      (fun t => decide (t ∉ (ws.onReconnect).submitted))).isEmpty = true := by
    rw [hfilterall]
    intro hx
    have h1 : ws.topics.map Prod.snd = [] := List.isEmpty_iff.mp hx
    exact hne (List.map_eq_nil_iff.mp h1)
  rw [handleTopics_eq_B env (ws.onReconnect) h hrem hadd]
  rw [send_listen_eq, hfilterall]
  rw [values_map_key_eq_keys hkeyed]
  rfl


theorem wsAddTopics_submitted (cap : Nat) (ws : Websocket κ)
    (ts : List (WebsocketTopic κ)) :
    (ws.addTopics cap ts).1.submitted = ws.submitted := rfl

theorem wsRemoveTopics_submitted (ws : Websocket κ) (ks : List κ) :
    (ws.removeTopics ks).1.submitted = ws.submitted := by
  simp only [Websocket.removeTopics]
  by_cases he : (ks.filter (fun k => decide (k ∈ ws.topics.map Prod.fst))).isEmpty
  · rw [if_pos he]
  · rw [if_neg he]

theorem handleTopics_msgs_spec (env : Env) (ws : Websocket κ) :
    (ws.handleTopics env).1.nonceCtr = ws.nonceCtr + (ws.handleTopics env).2.length ∧
      (∀ m ∈ (ws.handleTopics env).2,
        (m.type = MsgType.UNLISTEN ∨ m.type = MsgType.LISTEN) ∧
          m.authToken = some env.token) ∧
      (ws.handleTopics env).2.map (fun m => m.nonce) =
        (List.range (ws.handleTopics env).2.length).map
          (fun j => some (createNonce env (ws.nonceCtr + j))) := by
  by_cases h : ws.topicsChanged = true
  · by_cases hrem : (ws.submitted.filter
        (fun t => decide (t ∉ ws.topics.map Prod.snd))).isEmpty = true
    · by_cases hadd : ((ws.topics.map Prod.snd).filter
          (fun t => decide (t ∉ ws.submitted))).isEmpty = true
      · rw [handleTopics_eq_A env ws h hrem hadd]
        exact ⟨rfl, fun m hm => absurd hm (List.not_mem_nil m), by simp⟩
      · rw [handleTopics_eq_B env ws h hrem hadd]
        refine ⟨rfl, ?_, ?_⟩
        · intro m hm
          rcases List.mem_singleton.mp hm with rfl
          rw [send_listen_eq]
          exact ⟨Or.inr rfl, rfl⟩
        · simp [send_listen_eq, List.range_succ]
    · by_cases hadd : ((ws.topics.map Prod.snd).filter (fun t => decide (t ∉
          ws.submitted.filter (fun t => decide (t ∉
            ws.submitted.filter (fun t => decide (t ∉ ws.topics.map Prod.snd))))))).isEmpty
        = true
      · rw [handleTopics_eq_C env ws h hrem hadd]
        refine ⟨rfl, ?_, ?_⟩
        · intro m hm
          rcases List.mem_singleton.mp hm with rfl
          rw [send_unlisten_eq]
          exact ⟨Or.inl rfl, rfl⟩
        · simp [send_unlisten_eq, List.range_succ]
      · rw [handleTopics_eq_D env ws h hrem hadd]
        refine ⟨rfl, ?_, ?_⟩
        · intro m hm
          rcases List.mem_cons.mp hm with rfl | hm2
          · rw [send_unlisten_eq]
            exact ⟨Or.inl rfl, rfl⟩
          · rcases List.mem_singleton.mp hm2 with rfl
            rw [send_listen_eq]
            exact ⟨Or.inr rfl, rfl⟩
        · simp [send_unlisten_eq, send_listen_eq, List.range_succ]
  · rw [handleTopics_not_changed env ws (by simpa using h)]
    exact ⟨rfl, fun m hm => absurd hm (List.not_mem_nil m), by simp⟩

theorem addTopic_removeTopic_sync_silent (env : Env) (cap : Nat)
    (ws : Websocket κ) (t : WebsocketTopic κ)
    (hnodup : (ws.topics.map Prod.fst).Nodup)
    (hsync1 : ∀ a ∈ ws.submitted, a ∈ ws.topics.map Prod.snd)
    (hsync2 : ∀ a ∈ ws.topics.map Prod.snd, a ∈ ws.submitted)
    (hfresh : t.key ∉ ws.topics.map Prod.fst) :
    ((((ws.addTopics cap [t]).1).removeTopics [t.key]).1.handleTopics env).2 = [] := by
  set w1 := (ws.addTopics cap [t]).1 with hw1
  set w2 := ((w1.removeTopics [t.key]).1) with hw2
  have hw1sub : w1.submitted = ws.submitted := rfl
  have hw2sub : w2.submitted = ws.submitted := by
    rw [hw2, wsRemoveTopics_submitted, hw1sub]
  have hfid : ws.topics.filter (fun pr => decide (pr.1 ∉ [t.key])) = ws.topics := by
    refine List.filter_eq_self.mpr ?_
    intro pr hpr
    refine decide_eq_true ?_
    intro hmem
    rcases List.mem_singleton.mp hmem with heq
    exact hfresh (heq ▸ List.mem_map_of_mem _ hpr)
  have hw1topics : w1.topics = ws.topics ∨
      w1.topics = ws.topics ++ [(t.key, t)] := by
    rw [hw1]
    by_cases hlt : ws.topics.length < cap
    · right
      have hnd : ((ws.topics.map Prod.fst) ++ [t].map (fun t => t.key)).Nodup := by
        refine List.nodup_append.mpr ⟨hnodup, List.nodup_singleton _, ?_⟩
        intro a ha hb
        rcases List.mem_singleton.mp hb with rfl
        exact hfresh ha
      rw [Websocket.addTopics_eq cap ws [t] hnd]
      have : min (cap - ws.topics.length) ([t] : List (WebsocketTopic κ)).length = 1 := by
        simp only [List.length_singleton]
        omega
      simp [this]
      omega
    · left
      have : (ws.addTopics cap [t]) = ({ ws with
          topics := ws.topics,
          topicsChanged := ws.topicsChanged || false }, [t]) := by
        simp only [Websocket.addTopics, wsAddTopicsAux]
        rw [if_neg hlt]
      rw [this]
  have hw2topics : w2.topics = ws.topics := by
    rw [hw2, wsRemoveTopics_topics]
    rcases hw1topics with he | he
    · rw [he, hfid]
    · rw [he, List.filter_append, hfid]
      have : ([(t.key, t)] : List (κ × WebsocketTopic κ)).filter
          (fun pr => decide (pr.1 ∉ [t.key])) = [] := by
        simp
      rw [this, List.append_nil]
  by_cases hch : w2.topicsChanged = true
  · have hrem : (w2.submitted.filter
        (fun a => decide (a ∉ w2.topics.map Prod.snd))).isEmpty = true := by
      rw [hw2sub, hw2topics]
      rw [List.isEmpty_iff, List.filter_eq_nil_iff]
      intro a ha
      have hmem : a ∈ List.map Prod.snd ws.topics := hsync1 a ha
      simp [hmem]
    have hadd : ((w2.topics.map Prod.snd).filter
        (fun a => decide (a ∉ w2.submitted))).isEmpty = true := by
      rw [hw2sub, hw2topics]
      rw [List.isEmpty_iff, List.filter_eq_nil_iff]
      intro a ha
      have hmem : a ∈ ws.submitted := hsync2 a ha
      simp [hmem]
    rw [handleTopics_eq_A env w2 hch hrem hadd]
  · rw [handleTopics_not_changed env w2 (by simpa using hch)]


/-! ### Heartbeat lemmas -/

theorem handlePing_msgs (κ' : Type) [DecidableEq κ'] (env : Env)
    (interval timeout now : ℚ) (s : PingState) :
    ∀ m ∈ (handlePing κ' env interval timeout now s).2.2,
      m = ⟨MsgType.PING, [], none, none⟩ := by
  intro m hm
  simp only [handlePing] at hm
  by_cases h1 : s.nextPing ≤ now
  · rw [if_pos h1] at hm
    dsimp only at hm
    rw [send_ping_eq] at hm
    exact List.mem_singleton.mp hm
  · rw [if_neg h1] at hm
    by_cases h2 : s.maxPong ≤ now
    · rw [if_pos h2] at hm
      exact absurd hm (List.not_mem_nil m)
    · rw [if_neg h2] at hm
      exact absurd hm (List.not_mem_nil m)

theorem handlePing_trigger (κ' : Type) (env : Env) (interval timeout now : ℚ)
    (s : PingState) (h2 : s.maxPong ≤ now) (h3 : now < s.nextPing) :
    (handlePing κ' env interval timeout now s).2.1 = PingAction.reconnected ∧
      (handlePing κ' env interval timeout now s).1.reconnectRequested = true := by
  have h1 : ¬ s.nextPing ≤ now := not_le.mpr h3
  simp only [handlePing]
  rw [if_neg h1, if_pos h2]
  exact ⟨rfl, rfl⟩

theorem handlePing_reconnected_sets (κ' : Type) (env : Env)
    (interval timeout now : ℚ) (s : PingState)
    (h : (handlePing κ' env interval timeout now s).2.1 = PingAction.reconnected) :
    (handlePing κ' env interval timeout now s).1.reconnectRequested = true := by
  simp only [handlePing] at h ⊢
  by_cases h1 : s.nextPing ≤ now
  · rw [if_pos h1] at h
    exact absurd h (by simp)
  · rw [if_neg h1] at h ⊢
    by_cases h2 : s.maxPong ≤ now
    · rw [if_pos h2]
      rfl
    · rw [if_neg h2] at h
      exact absurd h (by simp)

theorem handlePing_not_reconnected_keeps (κ' : Type) (env : Env)
    (interval timeout now : ℚ) (s : PingState)
    (hs : s.reconnectRequested = false)
    (h : ¬ (handlePing κ' env interval timeout now s).2.1 = PingAction.reconnected) :
    (handlePing κ' env interval timeout now s).1.reconnectRequested = false := by
  simp only [handlePing] at h ⊢
  by_cases h1 : s.nextPing ≤ now
  · rw [if_pos h1]
    exact hs
  · rw [if_neg h1] at h ⊢
    by_cases h2 : s.maxPong ≤ now
    · rw [if_pos h2] at h
      exact absurd rfl h
    · rw [if_neg h2]
      exact hs

theorem runChecks_stopped (env : Env) (interval timeout : ℚ) :
    ∀ (ts : List ℚ) (s : PingState), s.reconnectRequested = true →
      (runChecks env interval timeout ts s).2 = 0
  | [], _, _ => rfl
  | t :: ts, s, h => by
    simp only [runChecks]
    rw [if_pos h]

theorem runChecks_le_one (env : Env) (interval timeout : ℚ) :
    ∀ (ts : List ℚ) (s : PingState), s.reconnectRequested = false →
      (runChecks env interval timeout ts s).2 ≤ 1
  | [], _, _ => Nat.zero_le _
  | t :: ts, s, h => by
    simp only [runChecks]
    rw [if_neg (by simp [h])]
    by_cases ha : (handlePing Nat env interval timeout t s).2.1 = PingAction.reconnected
    · rw [if_pos ha]
      have hset := handlePing_reconnected_sets Nat env interval timeout t s ha
      have hzero := runChecks_stopped env interval timeout ts _ hset
      omega
    · rw [if_neg ha]
      have hkeep := handlePing_not_reconnected_keeps Nat env interval timeout t s h ha
      have := runChecks_le_one env interval timeout ts _ hkeep
      omega


/-! ### Facts about the capacity scenario inputs -/

theorem natTopics_length (n : Nat) : (natTopics n).length = n := by
  rw [natTopics, List.length_map, List.length_range]

theorem natTopics_map_key (n : Nat) :
    (natTopics n).map (fun t => t.key) = List.range n := by
  rw [natTopics, List.map_map]
  have hcomp : ((fun t : WebsocketTopic Nat => t.key) ∘ fun i => (⟨i⟩ : WebsocketTopic Nat)) =
      id := by
    funext i
    rfl
  rw [hcomp, List.map_id]

theorem natTopics_nodup (n : Nat) : (natTopics n).Nodup := by
  rw [natTopics]
  refine List.Nodup.map ?_ (List.nodup_range n)
  intro a b h
  exact congrArg WebsocketTopic.key h

theorem natTopics_ne_nil (n : Nat) (hn : 0 < n) : natTopics n ≠ [] := by
  intro h
  have h1 := congrArg List.length h
  rw [natTopics_length] at h1
  simp at h1
  omega

theorem poolAddTopics_emptyPool (cfg : Config) (ts : List (WebsocketTopic κ))
    (hnd : ts.Nodup) (hne : ts ≠ []) :
    poolAddTopics cfg (emptyPool κ) ts =
      addNewAux cfg cfg.maxWebsockets (emptyPool κ) ts 0 := by
  have hdedup : dedup ts = ts := dedup_eq_self hnd
  have hE : ¬ ts.isEmpty = true := fun h => hne (List.isEmpty_iff.mp h)
  have hfilter : ts.filter (fun t => decide (t ∉ allTopicValues (emptyPool κ))) = ts := by
    refine List.filter_eq_self.mpr ?_
    intro a _
    exact decide_eq_true (List.not_mem_nil a)
  simp only [poolAddTopics]
  rw [hdedup, hfilter]
  rw [if_neg hE, if_neg hE]
  have hws : (emptyPool κ).websockets = [] := rfl
  rw [hws]
  have hfe : fillExisting cfg.wsTopicsLimit ([] : List (Websocket κ)) ts = ([], ts) := rfl
  rw [hfe]
  rw [if_neg hE]
  rfl

/-! ### The claims -/

/-- C5: when pool `add_topics` receives more distinct topics than
`MAX_WEBSOCKETS * WS_TOPICS_LIMIT` can hold, it raises `MinerException` after
placement is exhausted, and every topic placed before the raise remains
placed (no rollback): with capacity 50 and maximum 20, adding 1001 distinct
topics to the fresh pool raises, exactly 1000 of them are placed, and no key
is placed twice. -/
theorem c5 :
    (poolAddTopics defaultConfig (emptyPool Nat) (natTopics 1001)).2 = true ∧
      poolTotalTopics (poolAddTopics defaultConfig (emptyPool Nat) (natTopics 1001)).1 =
        1000 ∧
      (poolKeys (poolAddTopics defaultConfig (emptyPool Nat) (natTopics 1001)).1).Nodup := by
  have hnd : (natTopics 1001).Nodup := natTopics_nodup 1001
  have hne : natTopics 1001 ≠ [] := natTopics_ne_nil 1001 (by decide)
  rw [poolAddTopics_emptyPool defaultConfig (natTopics 1001) hnd hne]
  have hkeys : (poolKeys (emptyPool Nat) ++ (natTopics 1001).map (fun t => t.key)).Nodup := by
    have h0 : poolKeys (emptyPool Nat) = [] := rfl
    rw [natTopics_map_key, h0, List.nil_append]
    exact List.nodup_range 1001
  have hspec := addNewAux_spec defaultConfig defaultConfig.maxWebsockets (emptyPool Nat)
    (natTopics 1001) 0 hne hkeys
  have hlt : defaultConfig.maxWebsockets * defaultConfig.wsTopicsLimit <
      (natTopics 1001).length := by
    rw [natTopics_length]
    decide
  refine ⟨hspec.1.mpr hlt, ?_, ?_⟩
  · have htot : poolTotalTopics
        (addNewAux defaultConfig defaultConfig.maxWebsockets (emptyPool Nat)
          (natTopics 1001) 0).1 =
        (poolKeys (addNewAux defaultConfig defaultConfig.maxWebsockets (emptyPool Nat)
          (natTopics 1001) 0).1).length := by
      rw [poolTotalTopics, poolTotal_eq_keys_length]
      rfl
    rw [htot, hspec.2.1]
    have h0 : poolKeys (emptyPool Nat) = [] := rfl
    rw [h0, List.nil_append, List.length_map, List.length_take, natTopics_length]
    decide
  · rw [hspec.2.1]
    have h0 : poolKeys (emptyPool Nat) = [] := rfl
    rw [h0, List.nil_append, List.map_take, natTopics_map_key]
    exact ((List.range 1001).take_sublist _).nodup (List.nodup_range 1001)

/-- C1 (corrected): over every sequence of pool operations from the fresh
pool, unconditionally, no topic key is ever assigned to two connections
simultaneously (the pool's key list stays duplicate-free); and — only under
the side conditions the original sentence leaves implicit but the code
requires, namely every pooled connection currently connected (the first
placement loop skips disconnected ones, and freshly created connections
start disconnected) and the sanitized batch fitting the remaining total
capacity — `add_topics` raises nothing and every genuinely new topic of the
batch ends up assigned to exactly one connection. -/
theorem c1 (cfg : Config) (ops : List (PoolOp κ)) :
    (poolKeys (applyOps cfg ops (emptyPool κ))).Nodup ∧
      ∀ ts : List (WebsocketTopic κ),
        (∀ ws ∈ (applyOps cfg ops (emptyPool κ)).websockets, ws.connected = true) →
        poolTotalTopics (applyOps cfg ops (emptyPool κ)) +
            ((dedup ts).filter
              (fun t => decide (t ∉ allTopicValues (applyOps cfg ops (emptyPool κ))))).length ≤
          cfg.maxWebsockets * cfg.wsTopicsLimit →
        (poolAddTopics cfg (applyOps cfg ops (emptyPool κ)) ts).2 = false ∧
          ∀ t ∈ (dedup ts).filter
              (fun t => decide (t ∉ allTopicValues (applyOps cfg ops (emptyPool κ)))),
            countKey (poolAddTopics cfg (applyOps cfg ops (emptyPool κ)) ts).1 t.key = 1 := by
  have hwf := applyOps_wf cfg ops (emptyPool κ) (emptyPool_wf cfg)
  refine ⟨hwf.2.1, ?_⟩
  intro ts hconn hroom
  have hsucc := poolAddTopics_success cfg (applyOps cfg ops (emptyPool κ)) ts hwf hconn hroom
  have hwf2 := poolAddTopics_wf cfg (applyOps cfg ops (emptyPool κ)) ts hwf
  refine ⟨hsucc.1, ?_⟩
  intro t ht
  have hmem : t.key ∈ poolKeys (poolAddTopics cfg (applyOps cfg ops (emptyPool κ)) ts).1 := by
    rw [hsucc.2.1.mem_iff]
    exact List.mem_append.mpr (Or.inr (List.mem_map_of_mem _ ht))
  exact List.count_eq_one_of_mem hwf2.2.1 hmem

theorem c1_witness :
    (poolKeys (applyOps defaultConfig
        ((List.range 21).map (fun i => PoolOp.add [⟨i⟩])) (emptyPool Nat))).Nodup ∧
      ((poolAddTopics ⟨2, 2⟩ (applyOps ⟨2, 2⟩ ([] : List (PoolOp Nat)) (emptyPool Nat))
          [⟨5⟩]).2 = false ∧
        ∀ t ∈ (dedup [(⟨5⟩ : WebsocketTopic Nat)]).filter
            (fun t => decide (t ∉ allTopicValues
              (applyOps ⟨2, 2⟩ ([] : List (PoolOp Nat)) (emptyPool Nat)))),
          countKey (poolAddTopics ⟨2, 2⟩
            (applyOps ⟨2, 2⟩ ([] : List (PoolOp Nat)) (emptyPool Nat)) [⟨5⟩]).1 t.key = 1) :=
  ⟨(c1 defaultConfig ((List.range 21).map (fun i => PoolOp.add [⟨i⟩]))).1,
    (c1 ⟨2, 2⟩ []).2 [⟨5⟩] (by decide) (by decide)⟩

theorem c1_counterexample :
    countKey (applyOps defaultConfig
        ((List.range 21).map (fun i => PoolOp.add [⟨i⟩])) (emptyPool Nat)) 20 = 0 ∧
      poolTotalTopics (applyOps defaultConfig
          ((List.range 21).map (fun i => PoolOp.add [⟨i⟩])) (emptyPool Nat)) ≤
        defaultConfig.maxWebsockets * defaultConfig.wsTopicsLimit := by
  decide

/-- C2 (corrected): consolidation after pool `remove_topics` holds only under
the side conditions the code imposes — a non-empty removal set, at least two
pooled connections (`_optimize_pool` returns at once from a pool of fewer
than two, so a single-connection pool never consolidates), every connection
connected, a positive capacity, and a remaining total that in fact needs
fewer connections than are pooled.  Then the connection count drops to
`ceil(total_topics / CAPACITY)` and the surviving keys are exactly the
previous keys minus the removed ones, in some order (no topic lost). -/
theorem c2 (cfg : Config) (p : WebsocketPool κ) (ks : List κ)
    (hwf : PoolWF cfg p)
    (hconn : ∀ ws ∈ p.websockets, ws.connected = true)
    (hcap : 0 < cfg.wsTopicsLimit)
    (hks : ks ≠ [])
    (h2 : 2 ≤ p.websockets.length)
    (hshrink : ((((poolKeys p).filter (fun k => decide (k ∉ ks))).length +
        cfg.wsTopicsLimit - 1) / cfg.wsTopicsLimit) < p.websockets.length) :
    (poolRemoveTopics cfg p ks).websockets.length =
        (((poolKeys p).filter (fun k => decide (k ∉ ks))).length +
          cfg.wsTopicsLimit - 1) / cfg.wsTopicsLimit ∧
      (poolKeys (poolRemoveTopics cfg p ks)).Perm
        ((poolKeys p).filter (fun k => decide (k ∉ ks))) :=
  poolRemoveTopics_consolidates cfg p ks hwf hconn hcap hks h2 hshrink

theorem c2_witness :
    (PoolWF ⟨1, 3⟩ poolC2 ∧
      (∀ ws ∈ poolC2.websockets, ws.connected = true) ∧
      0 < (⟨1, 3⟩ : Config).wsTopicsLimit ∧
      ([1] : List Nat) ≠ [] ∧
      2 ≤ poolC2.websockets.length ∧
      ((((poolKeys poolC2).filter (fun k => decide (k ∉ ([1] : List Nat)))).length +
        (⟨1, 3⟩ : Config).wsTopicsLimit - 1) / (⟨1, 3⟩ : Config).wsTopicsLimit) <
        poolC2.websockets.length) ∧
      ((poolRemoveTopics ⟨1, 3⟩ poolC2 [1]).websockets.length =
        (((poolKeys poolC2).filter (fun k => decide (k ∉ ([1] : List Nat)))).length +
          (⟨1, 3⟩ : Config).wsTopicsLimit - 1) / (⟨1, 3⟩ : Config).wsTopicsLimit ∧
      (poolKeys (poolRemoveTopics ⟨1, 3⟩ poolC2 [1])).Perm
        ((poolKeys poolC2).filter (fun k => decide (k ∉ ([1] : List Nat))))) :=
  ⟨⟨by decide, by decide, by decide, by decide, by decide, by decide⟩,
    c2 ⟨1, 3⟩ poolC2 [1] (by decide) (by decide) (by decide) (by decide) (by decide)
      (by decide)⟩

theorem c2_counterexample :
    (applyOps defaultConfig [PoolOp.add [(⟨0⟩ : WebsocketTopic Nat)], PoolOp.remove [0]]
        (emptyPool Nat)).websockets.length = 1 ∧
      poolTotalTopics (applyOps defaultConfig
        [PoolOp.add [(⟨0⟩ : WebsocketTopic Nat)], PoolOp.remove [0]] (emptyPool Nat)) = 0 ∧
      ¬ (applyOps defaultConfig [PoolOp.add [(⟨0⟩ : WebsocketTopic Nat)], PoolOp.remove [0]]
          (emptyPool Nat)).websockets.length =
        (poolTotalTopics (applyOps defaultConfig
            [PoolOp.add [(⟨0⟩ : WebsocketTopic Nat)], PoolOp.remove [0]] (emptyPool Nat)) +
          defaultConfig.wsTopicsLimit - 1) / defaultConfig.wsTopicsLimit := by
  decide

/-- C3 (corrected): the subset invariant `submitted ⊆ values(topics)` does
not hold at every point between operations — `remove_topics` deletes from the
topic dict at once but `submitted` only shrinks at the next sync — but it is
restored by every sync of a connection with a pending topic change; a topic
newly entering `submitted` does so together with a `LISTEN` message carrying
its key; and on reconnect `submitted` is cleared while the topic dict is left
intact, so the first sync after a reconnect re-sends every current topic in
one `LISTEN`. -/
theorem c3 (env : Env) (ws : Websocket κ) (hch : ws.topicsChanged = true)
    (hkeyed : keyedWs ws) (hne : ws.topics ≠ []) :
    (∀ t ∈ (ws.handleTopics env).1.submitted,
        t ∈ (ws.handleTopics env).1.topics.map Prod.snd) ∧
      (∀ t ∈ (ws.handleTopics env).1.submitted, t ∉ ws.submitted →
        ∃ m ∈ (ws.handleTopics env).2, m.type = MsgType.LISTEN ∧ t.key ∈ m.topics) ∧
      ((ws.onReconnect).submitted = [] ∧ (ws.onReconnect).topics = ws.topics) ∧
      ((ws.onReconnect).handleTopics env).2 =
        [⟨MsgType.LISTEN, wsKeys ws, some env.token,
          some (createNonce env ws.nonceCtr)⟩] := by
  refine ⟨?_, handleTopics_new_submitted env ws, ⟨rfl, rfl⟩,
    handleTopics_after_reconnect env ws hkeyed hne⟩
  rw [handleTopics_topics]
  exact handleTopics_submitted_subset env ws hch

theorem c3_witness :
    (wsC3.topicsChanged = true ∧ keyedWs wsC3 ∧ wsC3.topics ≠ []) ∧
      ((∀ t ∈ (wsC3.handleTopics env0).1.submitted,
          t ∈ (wsC3.handleTopics env0).1.topics.map Prod.snd) ∧
        (∀ t ∈ (wsC3.handleTopics env0).1.submitted, t ∉ wsC3.submitted →
          ∃ m ∈ (wsC3.handleTopics env0).2, m.type = MsgType.LISTEN ∧ t.key ∈ m.topics) ∧
        ((wsC3.onReconnect).submitted = [] ∧ (wsC3.onReconnect).topics = wsC3.topics) ∧
        ((wsC3.onReconnect).handleTopics env0).2 =
          [⟨MsgType.LISTEN, wsKeys wsC3, some env0.token,
            some (createNonce env0 wsC3.nonceCtr)⟩]) :=
  ⟨⟨by decide, by decide, by decide⟩, c3 env0 wsC3 (by decide) (by decide) (by decide)⟩

theorem c3_counterexample :
    ¬ ∀ t ∈ (((({ (newWebsocket 0 : Websocket Nat) with
          connected := true }).addTopics 50
          [⟨1⟩]).1.handleTopics env0).1.removeTopics [1]).1.submitted,
        t ∈ (((({ (newWebsocket 0 : Websocket Nat) with
          connected := true }).addTopics 50
          [⟨1⟩]).1.handleTopics env0).1.removeTopics [1]).1.topics.map Prod.snd := by
  decide

/-- C4 (corrected): a heartbeat check whose pong deadline has passed while
the ping deadline has not requests a reconnect, and over any run of checks
starting with the reconnect event clear at most one reconnect request is ever
issued; but the spec's concrete scenario needs the ping interval to exceed
the ack timeout — with interval 2s and timeout 1s a clock advancing past the pong deadline
with no inbound frames yields exactly one reconnect request, whereas with
interval 1s and timeout 1s (the spec's numbers) the ping branch always
shadows the timeout branch and no reconnect is ever requested. -/
theorem c4 (env : Env) (interval timeout : ℚ) (ts : List ℚ) (s : PingState)
    (hs : s.reconnectRequested = false)
    (now : ℚ) (s2 : PingState) (h2 : s2.maxPong ≤ now) (h3 : now < s2.nextPing) :
    (runChecks env interval timeout ts s).2 ≤ 1 ∧
      (handlePing Nat env interval timeout now s2).2.1 = PingAction.reconnected ∧
      (runChecks env0 2 1 [0, 1, 2] (initPing 0 1)).2 = 1 :=
  ⟨runChecks_le_one env interval timeout ts s hs,
    (handlePing_trigger Nat env interval timeout now s2 h2 h3).1,
    by norm_num [runChecks, handlePing, initPing, requestReconnect]; decide⟩

theorem c4_witness :
    ((initPing 0 1).reconnectRequested = false ∧
      (⟨2, 1, false⟩ : PingState).maxPong ≤ (1 : ℚ) ∧
      (1 : ℚ) < (⟨2, 1, false⟩ : PingState).nextPing) ∧
      ((runChecks env0 2 1 [0, 1, 2] (initPing 0 1)).2 ≤ 1 ∧
        (handlePing Nat env0 2 1 1 ⟨2, 1, false⟩).2.1 = PingAction.reconnected ∧
        (runChecks env0 2 1 [0, 1, 2] (initPing 0 1)).2 = 1) :=
  ⟨⟨by decide, by decide, by decide⟩,
    c4 env0 2 1 [0, 1, 2] (initPing 0 1) (by decide) 1 ⟨2, 1, false⟩
      (by decide) (by decide)⟩

theorem c4_counterexample :
    (runChecks env0 1 1 [0, 1, 2] (initPing 0 1)).2 = 0 := by
  norm_num [runChecks, handlePing, initPing, requestReconnect]; decide

/-- C6 (corrected): the round-trip is silent only from a synced state.  For a
websocket whose submitted set matches its current topic values (and whose
dict keys are duplicate-free), adding a fresh topic and then removing that
same topic before any sync leaves the next sync emitting no outbound message
at all; with stale prior submitted state the next sync emits messages even
though the round-trip itself was a no-op. -/
theorem c6 (env : Env) (cap : Nat) (ws : Websocket κ) (t : WebsocketTopic κ)
    (hnodup : (ws.topics.map Prod.fst).Nodup)
    (hsync1 : ∀ a ∈ ws.submitted, a ∈ ws.topics.map Prod.snd)
    (hsync2 : ∀ a ∈ ws.topics.map Prod.snd, a ∈ ws.submitted)
    (hfresh : t.key ∉ ws.topics.map Prod.fst) :
    ((((ws.addTopics cap [t]).1).removeTopics [t.key]).1.handleTopics env).2 = [] :=
  addTopic_removeTopic_sync_silent env cap ws t hnodup hsync1 hsync2 hfresh

theorem c6_witness :
    (((mkSyncWs 0 [1]).topics.map Prod.fst).Nodup ∧
      (∀ a ∈ (mkSyncWs 0 [1]).submitted, a ∈ (mkSyncWs 0 [1]).topics.map Prod.snd) ∧
      (∀ a ∈ (mkSyncWs 0 [1]).topics.map Prod.snd, a ∈ (mkSyncWs 0 [1]).submitted) ∧
      (⟨2⟩ : WebsocketTopic Nat).key ∉ (mkSyncWs 0 [1]).topics.map Prod.fst) ∧
      ((((mkSyncWs 0 [1]).addTopics 50 [⟨2⟩]).1.removeTopics
        [(⟨2⟩ : WebsocketTopic Nat).key]).1.handleTopics env0).2 = [] :=
  ⟨⟨by decide, by decide, by decide, by decide⟩,
    c6 env0 50 (mkSyncWs 0 [1]) ⟨2⟩ (by decide) (by decide) (by decide) (by decide)⟩

theorem c6_counterexample :
    (((((((mkSyncWs 0 [1]).removeTopics [1]).1.addTopics 50
        [(⟨2⟩ : WebsocketTopic Nat)]).1).removeTopics [2]).1.handleTopics env0).2.map
        (fun m => m.type)) = [MsgType.UNLISTEN] := by
  decide

/-- C7: every outbound heartbeat frame is exactly the bare PING message with
no nonce and no token; every outbound subscription-control message is a
`LISTEN` or an `UNLISTEN` carrying the access token fetched at send time and
a fresh per-message nonce (consecutive draws of the nonce stream), and every
nonce the stream yields is 30 characters long. -/
theorem c7 (κ2 : Type) [inst : DecidableEq κ2] (env : Env) (interval timeout now : ℚ)
    (s : PingState) (ws : Websocket κ) :
    (∀ m ∈ (handlePing κ2 env interval timeout now s).2.2,
        m = ⟨MsgType.PING, [], none, none⟩) ∧
      (∀ m ∈ (ws.handleTopics env).2,
        (m.type = MsgType.UNLISTEN ∨ m.type = MsgType.LISTEN) ∧
          m.authToken = some env.token) ∧
      ((ws.handleTopics env).2.map (fun m => m.nonce) =
        (List.range (ws.handleTopics env).2.length).map
          (fun j => some (createNonce env (ws.nonceCtr + j)))) ∧
      ∀ j, (createNonce env j).length = 30 := by
  refine ⟨handlePing_msgs κ2 env interval timeout now s,
    (handleTopics_msgs_spec env ws).2.1, (handleTopics_msgs_spec env ws).2.2, ?_⟩
  intro j
  rfl

/-- C8: pool `remove_topics` with the empty key set returns the pool exactly
as it was; in particular the connection count never changes. -/
theorem c8 (cfg : Config) (p : WebsocketPool κ) :
    poolRemoveTopics cfg p [] = p ∧
      (poolRemoveTopics cfg p []).websockets.length = p.websockets.length :=
  ⟨rfl, rfl⟩

/-- C9: the topic dict of a connection stays keyed by the string form of its
values — every stored pair binds a topic under exactly its own key — under
both `add_topics` and `remove_topics` of the connection. -/
theorem c9 (cap : Nat) (ws : Websocket κ) (ts : List (WebsocketTopic κ)) (ks : List κ)
    (h : keyedWs ws) :
    keyedWs (ws.addTopics cap ts).1 ∧ keyedWs (ws.removeTopics ks).1 :=
  ⟨Websocket.addTopics_keyed h, wsRemoveTopics_keyed h⟩

theorem c9_witness :
    keyedWs (mkConnWs 0 [1, 2]) ∧
      (keyedWs ((mkConnWs 0 [1, 2]).addTopics 50 [⟨3⟩]).1 ∧
        keyedWs ((mkConnWs 0 [1, 2]).removeTopics [1]).1) :=
  ⟨by decide, c9 50 (mkConnWs 0 [1, 2]) [⟨3⟩] [1] (by decide)⟩

/-- C10: pool `stop` stops every member connection (each ends closed and
disconnected), clears the running flag and zeroes the connection counter, but
never removes a connection from the list, whatever the `clear_topics` flag;
a subsequent `start` sets the running flag and restarts every retained
connection. -/
theorem c10 (clearTopics : Bool) (p : WebsocketPool κ) :
    (poolStop clearTopics p).websockets.length = p.websockets.length ∧
      (poolStop clearTopics p).websockets.map (fun ws => ws.idx) =
        p.websockets.map (fun ws => ws.idx) ∧
      (poolStop clearTopics p).running = false ∧
      (poolStop clearTopics p).connectionCount = 0 ∧
      (∀ ws ∈ (poolStop clearTopics p).websockets,
        ws.closed = true ∧ ws.connected = false) ∧
      (poolStart (poolStop clearTopics p)).running = true ∧
      (poolStart (poolStop clearTopics p)).websockets.length = p.websockets.length ∧
      (∀ ws ∈ (poolStart (poolStop clearTopics p)).websockets, ws.closed = false) := by
  refine ⟨?_, ?_, rfl, rfl, ?_, rfl, ?_, ?_⟩
  · simp [poolStop]
  · simp only [poolStop, List.map_map]
    refine List.map_congr_left ?_
    intro ws _
    cases clearTopics <;> rfl
  · intro ws hws
    simp only [poolStop, List.mem_map] at hws
    rcases hws with ⟨w, _, rfl⟩
    cases clearTopics <;> exact ⟨rfl, rfl⟩
  · simp [poolStart, poolStop]
  · intro ws hws
    simp only [poolStart, List.mem_map] at hws
    rcases hws with ⟨w, _, rfl⟩
    rfl

end TwitchWS
